/-
Verification of the voice-streaming subsystem (the useVoice hook):
capture encoding, base64 transport, the playback queue, and the
session / connection lifecycle, shallowly embedded as executable
Lean definitions with theorems about the spec's claims.
-/
import Mathlib

/-! ## Capture-side sample quantization and playback-side decoding

Source (startRecording, float32 → int16 conversion):
  pcmData[i] = Math.max(-1, Math.min(1, inputData[i])) * 0x7FFF
stored into an `Int16Array`, whose store semantics is ToInt16:
truncate toward zero, then wrap modulo 2^16 into [-32768, 32768).

Source (playAudio, Int16 → Float32 normalize):
  float32Data[i] = int16Data[i] / 32768.0
-/

/-- `Math.max(-1, Math.min(1, x))` — clamp a sample into [-1, 1]. -/
def clampSample (x : ℚ) : ℚ := max (-1) (min 1 x)

/-- Truncation toward zero of a rational, as JS ToIntegerOrInfinity does. -/
def ratTrunc (q : ℚ) : ℤ := if 0 ≤ q then ⌊q⌋ else ⌈q⌉

/-- JS `Int16Array` store semantics (ToInt16): truncate toward zero, wrap
modulo 2^16, reinterpret into [-32768, 32768). -/
def toInt16 (q : ℚ) : ℤ :=
  let u := ratTrunc q % 65536
  if u < 32768 then u else u - 65536

/-- The capture encoder's per-sample quantization, exactly as the source
computes it: clamp, scale by 0x7FFF = 32767, store into an Int16Array. -/
def encodeSample (x : ℚ) : ℤ := toInt16 (clampSample x * 32767)

/-- The playback side's per-sample decoding: divide by 32768. -/
def decodeSample (i : ℤ) : ℚ := (i : ℚ) / 32768

theorem clampSample_le_one (x : ℚ) : clampSample x ≤ 1 :=
  max_le (by norm_num) (min_le_left _ _)

theorem neg_one_le_clampSample (x : ℚ) : -1 ≤ clampSample x :=
  le_max_left _ _

theorem ratTrunc_le {q : ℚ} {b : ℤ} (h : q ≤ (b : ℚ)) (hb : 0 ≤ b) : ratTrunc q ≤ b := by
  unfold ratTrunc
  split
  · exact (Int.floor_le_floor h).trans (by simp)
  · have hq : q < 0 := lt_of_not_le (by assumption)
    have h0 : ⌈q⌉ ≤ ⌈(0 : ℚ)⌉ := Int.ceil_le_ceil (le_of_lt hq)
    simp at h0
    omega

theorem le_ratTrunc {q : ℚ} {b : ℤ} (h : (b : ℚ) ≤ q) (hb : b ≤ 0) : b ≤ ratTrunc q := by
  unfold ratTrunc
  split
  · have h0 : (0 : ℤ) ≤ ⌊q⌋ := Int.floor_nonneg.mpr (by assumption)
    omega
  · calc b = ⌈(b : ℚ)⌉ := by simp
      _ ≤ ⌈q⌉ := Int.ceil_le_ceil h

/-- Truncation error is below one: `q - 1 < ratTrunc q ≤ q` for `q ≥ 0`,
and symmetrically for `q < 0`; together `|ratTrunc q - q| < 1`. -/
theorem abs_ratTrunc_sub_lt_one (q : ℚ) : |(ratTrunc q : ℚ) - q| < 1 := by
  unfold ratTrunc
  split
  · rw [abs_sub_lt_iff]
    constructor
    · linarith [Int.floor_le q]
    · linarith [Int.sub_one_lt_floor q]
  · rw [abs_sub_lt_iff]
    constructor
    · linarith [Int.ceil_lt_add_one q]
    · linarith [Int.le_ceil q]

/-- On the clamped-and-scaled range no 16-bit wraparound happens, so the
`Int16Array` store is plain truncation toward zero. -/
theorem toInt16_eq_ratTrunc {q : ℚ} (hlo : (-32767 : ℚ) ≤ q) (hhi : q ≤ 32767) :
    toInt16 q = ratTrunc q := by
  have h1 : ratTrunc q ≤ 32767 := ratTrunc_le (by exact_mod_cast hhi) (by norm_num)
  have h2 : (-32767 : ℤ) ≤ ratTrunc q := le_ratTrunc (by exact_mod_cast hlo) (by norm_num)
  unfold toInt16
  dsimp only
  split <;> omega

theorem clampScale_bounds (x : ℚ) :
    (-32767 : ℚ) ≤ clampSample x * 32767 ∧ clampSample x * 32767 ≤ 32767 := by
  have h1 := neg_one_le_clampSample x
  have h2 := clampSample_le_one x
  constructor <;> nlinarith

/-- **C4 (counterexample).** The claim says the encoder computes
`round(clamp(x, -1, 1) * 32767)`. At the sample `x = 1/2` the code's
Int16Array store truncates `16383.5` to `16383`, while rounding gives
`16384`, so the claim as stated is false. -/
theorem claimC4_counterexample :
    encodeSample (1/2) ≠ round (clampSample (1/2) * 32767) := by
  norm_num [encodeSample, toInt16, ratTrunc, clampSample, round_eq]

/-- **C4 (amended).** For every input sample `x`, the Capture Encoder
quantizes it to `trunc(clamp(x, -1, 1) * 32767)` — truncation toward zero,
as performed by the JS Int16Array store (no wraparound occurs on the
clamped range) — which is within 1 of the exact scaled value
`clamp(x, -1, 1) * 32767`, but is not the rounded value in general. -/
theorem claimC4_amended (x : ℚ) :
    encodeSample x = ratTrunc (clampSample x * 32767) ∧
    |(encodeSample x : ℚ) - clampSample x * 32767| < 1 := by
  obtain ⟨hlo, hhi⟩ := clampScale_bounds x
  have heq : encodeSample x = ratTrunc (clampSample x * 32767) :=
    toInt16_eq_ratTrunc hlo hhi
  exact ⟨heq, heq ▸ abs_ratTrunc_sub_lt_one _⟩

/-- **C5.** Round-trip: encoding the sample value `1.0` with the
capture-side quantization (clamp, scale by 32767, Int16 store) and then
decoding with the playback-side normalization (divide by 32768) yields
`32767/32768`, which is within `1/32768` of `1.0`. -/
theorem claimC5 : |decodeSample (encodeSample 1) - 1| ≤ 1 / 32768 := by
  norm_num [encodeSample, decodeSample, toInt16, ratTrunc, clampSample, abs_le]

/-! ## Base64 transport

Source (startRecording): bytes of the Int16Array buffer are turned into a
binary string via String.fromCharCode and encoded with `btoa`; source
(playAudio): `atob` decodes the payload back to bytes. Modelled over byte
lists and the standard base64 alphabet. -/

/-- The base64 alphabet: digit (0–63) to character. -/
def b64chr (d : ℕ) : Char :=
  if d < 26 then Char.ofNat (65 + d)
  else if d < 52 then Char.ofNat (97 + (d - 26))
  else if d < 62 then Char.ofNat (48 + (d - 52))
  else if d = 62 then '+' else '/'

/-- Inverse base64 alphabet: character to digit. -/
def b64inv (c : Char) : ℕ :=
  if 65 ≤ c.toNat ∧ c.toNat ≤ 90 then c.toNat - 65
  else if 97 ≤ c.toNat ∧ c.toNat ≤ 122 then c.toNat - 97 + 26
  else if 48 ≤ c.toNat ∧ c.toNat ≤ 57 then c.toNat - 48 + 52
  else if c = '+' then 62 else 63

/-- `btoa` on a byte sequence: groups of three bytes become four base64
characters; a trailing group of one or two bytes is padded with `=`. -/
def b64encode : List ℕ → List Char
  | [] => []
  | [a] => [b64chr (a / 4), b64chr (a % 4 * 16), '=', '=']
  | [a, b] => [b64chr (a / 4), b64chr (a % 4 * 16 + b / 16), b64chr (b % 16 * 4), '=']
  | a :: b :: c :: rest =>
      b64chr (a / 4) :: b64chr (a % 4 * 16 + b / 16) ::
        b64chr (b % 16 * 4 + c / 64) :: b64chr (c % 64) :: b64encode rest

/-- `atob` on a base64 string: each four-character group yields three
bytes, or fewer at the end when padded with `=`. -/
def b64decode : List Char → List ℕ
  | c0 :: c1 :: c2 :: c3 :: rest =>
      if c2 = '=' then [b64inv c0 * 4 + b64inv c1 / 16]
      else if c3 = '=' then
        [b64inv c0 * 4 + b64inv c1 / 16, b64inv c1 % 16 * 16 + b64inv c2 / 4]
      else
        (b64inv c0 * 4 + b64inv c1 / 16) ::
          (b64inv c1 % 16 * 16 + b64inv c2 / 4) ::
          (b64inv c2 % 4 * 64 + b64inv c3) :: b64decode rest
  | _ => []

theorem b64inv_b64chr : ∀ d < 64, b64inv (b64chr d) = d := by decide

theorem b64chr_ne_pad : ∀ d < 64, b64chr d ≠ '=' := by decide

/-- Decoding inverts encoding on byte sequences. -/
theorem b64decode_b64encode : ∀ bs : List ℕ, (∀ x ∈ bs, x < 256) →
    b64decode (b64encode bs) = bs
  | [], _ => rfl
  | [a], h => by
    have ha : a < 256 := h a (by simp)
    simp only [b64encode, b64decode, reduceIte]
    rw [b64inv_b64chr (a / 4) (by omega), b64inv_b64chr (a % 4 * 16) (by omega)]
    simp only [List.cons.injEq, and_true]
    omega
  | [a, b], h => by
    have ha : a < 256 := h a (by simp)
    have hb : b < 256 := h b (by simp)
    simp only [b64encode, b64decode, reduceIte,
      if_neg (b64chr_ne_pad (b % 16 * 4) (by omega))]
    rw [b64inv_b64chr (a / 4) (by omega), b64inv_b64chr (a % 4 * 16 + b / 16) (by omega),
      b64inv_b64chr (b % 16 * 4) (by omega)]
    simp only [List.cons.injEq, and_true]
    omega
  | a :: b :: c :: rest, h => by
    have ha : a < 256 := h a (by simp)
    have hb : b < 256 := h b (by simp)
    have hc : c < 256 := h c (by simp)
    have ih := b64decode_b64encode rest (fun x hx => h x (by simp [hx]))
    simp only [b64encode, b64decode,
      if_neg (b64chr_ne_pad (b % 16 * 4 + c / 64) (by omega)),
      if_neg (b64chr_ne_pad (c % 64) (by omega))]
    rw [b64inv_b64chr (a / 4) (by omega), b64inv_b64chr (a % 4 * 16 + b / 16) (by omega),
      b64inv_b64chr (b % 16 * 4 + c / 64) (by omega), b64inv_b64chr (c % 64) (by omega)]
    rw [ih]
    simp only [List.cons.injEq, and_true]
    omega

/-! ## Outbound chunk bytes

Source (startRecording): `pcmData.buffer` viewed as a `Uint8Array` — each
16-bit sample contributes two little-endian bytes. -/

/-- The two little-endian bytes of a 16-bit sample's two's-complement
representation. -/
def int16Bytes (i : ℤ) : List ℕ :=
  let u := (i % 65536).toNat
  [u % 256, u / 256]

/-- The byte sequence of a whole captured block after quantization:
the Uint8Array view of the Int16Array's buffer. -/
def blockBytes : List ℚ → List ℕ
  | [] => []
  | x :: rest => int16Bytes (encodeSample x) ++ blockBytes rest

theorem int16Bytes_length (i : ℤ) : (int16Bytes i).length = 2 := rfl

theorem int16Bytes_lt (i : ℤ) : ∀ x ∈ int16Bytes i, x < 256 := by
  intro x hx
  have h0 : (0 : ℤ) ≤ i % 65536 := Int.emod_nonneg i (by norm_num)
  have h1 : i % 65536 < 65536 := Int.emod_lt_of_pos i (by norm_num)
  have h2 : (i % 65536).toNat < 65536 := by omega
  simp only [int16Bytes, List.mem_cons, List.mem_singleton, List.not_mem_nil, or_false] at hx
  rcases hx with h | h <;> subst h <;> omega

theorem blockBytes_length (b : List ℚ) : (blockBytes b).length = 2 * b.length := by
  induction b with
  | nil => rfl
  | cons x rest ih =>
    simp only [blockBytes, List.length_append, int16Bytes_length, ih, List.length_cons]
    ring

theorem blockBytes_lt (b : List ℚ) : ∀ x ∈ blockBytes b, x < 256 := by
  induction b with
  | nil => simp [blockBytes]
  | cons y rest ih =>
    intro x hx
    simp only [blockBytes, List.mem_append] at hx
    rcases hx with h | h
    · exact int16Bytes_lt _ x h
    · exact ih x h

/-- Decoding an encoded block's payload gives back exactly the block's
bytes: `2 × block_sample_count` of them. -/
theorem decoded_payload_length (b : List ℚ) :
    (b64decode (b64encode (blockBytes b))).length = 2 * b.length := by
  rw [b64decode_b64encode _ (blockBytes_lt b), blockBytes_length]

/-! ## The session state machine

Shallow embedding of the useVoice hook: React state fields, the mutable
refs, and the socket/device handles, with the event handlers of the source
(ws.onopen / ws.onmessage / ws.onerror / ws.onclose, processor.onaudioprocess,
processAudioQueue / playAudio and the source.onended / catch continuations,
startRecording / stopRecording, the useEffect mount/cleanup) as one step
function over environment-delivered events.  Handles (sockets, microphone
streams, audio contexts) are identified by fresh numeric ids drawn from a
counter, and every externally visible action is recorded as an `Effect`. -/

/-- WebSocket readyState. -/
inductive WSt where
  | CONNECTING
  | OPEN
  | CLOSED
deriving DecidableEq

/-- A WebSocket handle: identity plus readyState. -/
structure Sock where
  id : ℕ
  readyState : WSt
deriving DecidableEq

/-- Outbound wire messages (the JSON envelopes the hook sends). -/
inductive Msg where
  | config (timezone : String)
  | audio_chunk (payload : List Char)
deriving DecidableEq

/-- Inbound wire messages (parsed `event.data`). -/
inductive InMsg where
  | transcriptMsg (text : String) (is_final : Bool)
  | agent_response
  | audio_response (payload : String)
  | unknown
deriving DecidableEq

/-- Externally visible actions of the hook, in execution order. -/
inductive Effect where
  | wsCreate (sockId : ℕ)
  | wsOpened (sockId : ℕ)
  | wsSend (sockId : ℕ) (m : Msg)
  | wsClosed (sockId : ℕ)
  | micAcquire (streamId : ℕ)
  | micRelease (streamId : ℕ)
  | ctxCreate (ctxId : ℕ) (sampleRate : ℕ)
  | ctxClose (ctxId : ℕ)
  | enqueue (c : String)
  | playStart (c : String)
  | playDropped (c : String)
  | playDone (c : String) (ok : Bool)
  | logError (s : String)
  | setVolume (v : ℚ)
deriving DecidableEq

/-- Events delivered by the platform event loop to the hook's handlers. -/
inductive Evt where
  | wsOpen
  | wsMessage (m : InMsg)
  | wsMalformed
  | wsError
  | wsClose
  | audioBlock (block : List ℚ)
  | playEnded
  | playFailed
  | startRecording (granted : Bool)
  | stopRecording
  | unmount
deriving DecidableEq

/-- The hook's state: React state fields and the mutable refs. -/
structure SessionState where
  isListening : Bool
  isProcessing : Bool
  transcript : String
  volume : ℚ
  error : Option String
  /-- websocketRef. -/
  websocket : Option Sock
  /-- mediaRecorderRef: the stored stop closure, holding the captured
  stream's id (null until the first successful startRecording). -/
  mediaRecorder : Option ℕ
  /-- audioContextRef. -/
  audioContext : Option ℕ
  /-- isListeningRef. -/
  isListeningRef : Bool
  /-- audioQueueRef. -/
  audioQueue : List String
  /-- isPlayingRef, together with the chunk captured by the in-flight
  playAudio promise (none = not playing). -/
  playing : Option String
  /-- Fresh-handle counter (model bookkeeping for identities). -/
  nextId : ℕ
deriving DecidableEq

/-- The platform environment: the IANA timezone reported by Intl, and the
platform's square-root routine used by the RMS volume computation. -/
structure Env where
  tz : String
  sqrtq : ℚ → ℚ

/-- Source connectWebSocket: no-op if the current socket is OPEN,
otherwise create a fresh socket (readyState CONNECTING) and overwrite the
ref.  A non-OPEN previous socket is simply orphaned, as in the source. -/
def connectWebSocket (s : SessionState) : SessionState × List Effect :=
  match s.websocket with
  | some w =>
    if w.readyState = WSt.OPEN then (s, [])
    else ({s with websocket := some ⟨s.nextId, WSt.CONNECTING⟩, nextId := s.nextId + 1},
          [Effect.wsCreate s.nextId])
  | none => ({s with websocket := some ⟨s.nextId, WSt.CONNECTING⟩, nextId := s.nextId + 1},
             [Effect.wsCreate s.nextId])

/-- Source playAudio up to source.start(0): decode the chunk, lazily create
the 24 kHz output AudioContext if the ref is empty, and begin playback.
Completion (source.onended) and failure (catch) arrive later as events. -/
def playAudio (s : SessionState) (c : String) : SessionState × List Effect :=
  match s.audioContext with
  | none => ({s with audioContext := some s.nextId, nextId := s.nextId + 1,
                     playing := some c},
             [Effect.ctxCreate s.nextId 24000, Effect.playStart c])
  | some _ => ({s with playing := some c}, [Effect.playStart c])

/-- Source processAudioQueue: return if already playing or the queue is
empty; otherwise shift the head and test it with `if (nextAudio)` — a
falsy payload (the empty string) is silently discarded, the playing flag
ends cleared and there is no recursion (anything behind it waits for the
next trigger); a truthy payload sets the playing flag and is played. -/
def processAudioQueue (s : SessionState) : SessionState × List Effect :=
  if s.playing.isSome then (s, [])
  else
    match s.audioQueue with
    | [] => (s, [])
    | c :: rest =>
      if c = "" then ({s with audioQueue := rest}, [Effect.playDropped c])
      else playAudio {s with audioQueue := rest} c

/-- Sum of squares of a block (the RMS numerator loop). -/
def sumSq : List ℚ → ℚ
  | [] => 0
  | x :: rest => x * x + sumSq rest

/-- The published volume: `Math.min(1, rms * 5)` where
`rms = sqrt(sum / inputData.length)`. -/
def computedVolume (env : Env) (block : List ℚ) : ℚ :=
  min 1 (env.sqrtq (sumSq block / (block.length : ℚ)) * 5)

/-- The base64 payload of one captured block (quantize, view the buffer as
bytes, btoa). -/
def chunkPayload (block : List ℚ) : List Char := b64encode (blockBytes block)

/-- Source startRecording: clear the error, ensure the socket is connected
(connectWebSocket no-ops only when it is OPEN), then await getUserMedia.
On grant: acquire the stream, open a fresh 16 kHz AudioContext
(overwriting the ref), wire the graph, store the stop closure, set both
listening flags.  On denial the catch sets the microphone error. -/
def startRecording (s : SessionState) (granted : Bool) : SessionState × List Effect :=
  let s0 : SessionState := {s with error := none}
  let s1 := (connectWebSocket s0).1
  let fx1 := (connectWebSocket s0).2
  match granted with
  | true =>
    ({s1 with mediaRecorder := some s1.nextId,
              audioContext := some (s1.nextId + 1),
              isListening := true, isListeningRef := true,
              nextId := s1.nextId + 2},
     fx1 ++ [Effect.micAcquire s1.nextId, Effect.ctxCreate (s1.nextId + 1) 16000])
  | false =>
    ({s1 with error := some "Could not access microphone"},
     fx1 ++ [Effect.logError "Error starting recording"])

/-- Source stopRecording: invoke the stored stop closure if any
(disconnect the graph, stop the stream's tracks), clear both listening
flags, reset the volume.  The mediaRecorder ref itself is not nulled. -/
def stopRecordingStep (s : SessionState) : SessionState × List Effect :=
  let fx := match s.mediaRecorder with
    | some streamId => [Effect.micRelease streamId]
    | none => []
  ({s with isListening := false, isListeningRef := false, volume := 0}, fx)

/-- One event-loop turn of the hook: dispatch an event to the handler the
source registers for it. -/
def step (env : Env) (s : SessionState) (e : Evt) : SessionState × List Effect :=
  match e with
  | Evt.wsOpen =>
    -- ws.onopen: clear the error and send the config handshake with the
    -- Intl timezone; fires once, when the current socket finishes connecting.
    match s.websocket with
    | some w =>
      if w.readyState = WSt.CONNECTING then
        ({s with websocket := some ⟨w.id, WSt.OPEN⟩, error := none},
         [Effect.wsOpened w.id, Effect.wsSend w.id (Msg.config env.tz)])
      else (s, [])
    | none => (s, [])
  | Evt.wsMessage m =>
    -- ws.onmessage dispatch on data.type.
    match m with
    | InMsg.transcriptMsg t fin =>
      ({s with transcript := t, isProcessing := if fin then true else s.isProcessing}, [])
    | InMsg.agent_response => ({s with isProcessing := false}, [])
    | InMsg.audio_response p =>
      let s1 := {s with audioQueue := s.audioQueue ++ [p]}
      let (s2, fx) := processAudioQueue s1
      (s2, Effect.enqueue p :: fx)
    | InMsg.unknown => (s, [])
  | Evt.wsMalformed => (s, [Effect.logError "Error parsing WS message"])
  | Evt.wsError =>
    -- ws.onerror: surface the error and force the observable listening
    -- flag off; the internal isListeningRef is NOT touched.  Per the
    -- platform, the connection is failed by the time onerror fires.
    match s.websocket with
    | some w =>
      ({s with websocket := some ⟨w.id, WSt.CLOSED⟩,
               error := some "Connection error", isListening := false},
       [Effect.logError "WebSocket error"])
    | none =>
      ({s with error := some "Connection error", isListening := false},
       [Effect.logError "WebSocket error"])
  | Evt.wsClose =>
    match s.websocket with
    | some w => ({s with websocket := some ⟨w.id, WSt.CLOSED⟩}, [])
    | none => (s, [])
  | Evt.audioBlock b =>
    -- processor.onaudioprocess: bail out unless isListeningRef; compute
    -- and publish the RMS volume; quantize, base64 and send the chunk iff
    -- the socket ref is OPEN.
    if s.isListeningRef then
      let vol := computedVolume env b
      let s1 := {s with volume := vol}
      match s.websocket with
      | some w =>
        if w.readyState = WSt.OPEN then
          (s1, [Effect.setVolume vol, Effect.wsSend w.id (Msg.audio_chunk (chunkPayload b))])
        else (s1, [Effect.setVolume vol])
      | none => (s1, [Effect.setVolume vol])
    else (s, [])
  | Evt.playEnded =>
    -- source.onended: clear the playing flag, resolve, and let the awaited
    -- processAudioQueue continuation run.
    match s.playing with
    | some c =>
      let (s2, fx) := processAudioQueue {s with playing := none}
      (s2, Effect.playDone c true :: fx)
    | none => (s, [])
  | Evt.playFailed =>
    -- playAudio catch: log, clear the playing flag, resolve; the awaited
    -- processAudioQueue continuation then plays the next chunk.
    match s.playing with
    | some c =>
      let (s2, fx) := processAudioQueue {s with playing := none}
      (s2, Effect.logError "Error playing audio" :: Effect.playDone c false :: fx)
    | none => (s, [])
  | Evt.startRecording granted => startRecording s granted
  | Evt.stopRecording => stopRecordingStep s
  | Evt.unmount =>
    -- useEffect cleanup: close the socket and the audio context; the
    -- stored capture stop closure is NOT invoked and no ref is nulled.
    let fx1 := match s.websocket with
      | some w => [Effect.wsClosed w.id]
      | none => []
    let fx2 := match s.audioContext with
      | some c => [Effect.ctxClose c]
      | none => []
    let ws1 : Option Sock := match s.websocket with
      | some w => some ⟨w.id, WSt.CLOSED⟩
      | none => none
    ({s with websocket := ws1}, fx1 ++ fx2)

/-- Run a list of events, accumulating effects in order. -/
def steps (env : Env) (s : SessionState) : List Evt → SessionState × List Effect
  | [] => (s, [])
  | e :: rest =>
    ((steps env (step env s e).1 rest).1,
     (step env s e).2 ++ (steps env (step env s e).1 rest).2)

/-- The freshly mounted hook before the useEffect body runs. -/
def blankState : SessionState :=
  { isListening := false, isProcessing := false, transcript := "", volume := 0,
    error := none, websocket := none, mediaRecorder := none, audioContext := none,
    isListeningRef := false, audioQueue := [], playing := none, nextId := 0 }

/-- Mount: the useEffect body calls connectWebSocket eagerly. -/
def sessionInit : SessionState × List Effect := connectWebSocket blankState

/-- A full run of the hook from mount. -/
def runSession (env : Env) (evs : List Evt) : SessionState × List Effect :=
  ((steps env sessionInit.1 evs).1, sessionInit.2 ++ (steps env sessionInit.1 evs).2)

/-! ## Trace queries -/

/-- Messages sent on socket `i`, in order. -/
def sentOn (i : ℕ) (tr : List Effect) : List Msg :=
  tr.filterMap fun e => match e with
    | Effect.wsSend j m => if j = i then some m else none
    | _ => none

/-- All socket sends (socket id and message), in order. -/
def allSends (tr : List Effect) : List (ℕ × Msg) :=
  tr.filterMap fun e => match e with
    | Effect.wsSend j m => some (j, m)
    | _ => none

/-- Microphone streams acquired so far. -/
def micAcquiredIds (tr : List Effect) : List ℕ :=
  tr.filterMap fun e => match e with
    | Effect.micAcquire i => some i
    | _ => none

/-- Microphone streams whose tracks have been stopped. -/
def micReleasedIds (tr : List Effect) : List ℕ :=
  tr.filterMap fun e => match e with
    | Effect.micRelease i => some i
    | _ => none

/-- Capture handles still open: acquired and never released. -/
def openMicCount (tr : List Effect) : ℕ :=
  ((micAcquiredIds tr).filter fun i => !(micReleasedIds tr).contains i).length

/-- Audio contexts created so far. -/
def ctxCreatedIds (tr : List Effect) : List ℕ :=
  tr.filterMap fun e => match e with
    | Effect.ctxCreate i _ => some i
    | _ => none

/-- Audio contexts that have been closed. -/
def ctxClosedIds (tr : List Effect) : List ℕ :=
  tr.filterMap fun e => match e with
    | Effect.ctxClose i => some i
    | _ => none

/-- Output-device contexts still open: created and never closed. -/
def openCtxCount (tr : List Effect) : ℕ :=
  ((ctxCreatedIds tr).filter fun i => !(ctxClosedIds tr).contains i).length

/-- A concrete environment for concrete runs. -/
def env0 : Env := { tz := "UTC", sqrtq := fun _ => 0 }

/-! ## Playback observations

The playback-relevant projection of an effect trace: starts and
completions (successful end-of-buffer or decode failure). -/

/-- One playback observation: a chunk starting to play, a completion
callback (successful onended or failure resolve), or the silent discard
of a falsy (empty) payload by the `if (nextAudio)` check. -/
inductive PlayOb where
  | st (c : String)
  | fin (c : String) (ok : Bool)
  | drop (c : String)
deriving DecidableEq

/-- Playback observations of a trace, in order. -/
def playProj (tr : List Effect) : List PlayOb :=
  tr.filterMap fun e => match e with
    | Effect.playStart c => some (PlayOb.st c)
    | Effect.playDone c ok => some (PlayOb.fin c ok)
    | Effect.playDropped c => some (PlayOb.drop c)
    | _ => none

/-- Serialized-playback check: only non-empty chunks start, starts and
completions strictly alternate, every completion names the chunk whose
start is still open, a second start never happens before the first
completes, and only empty (falsy) chunks are dropped — never while a
chunk is sounding. -/
def wfPlay : Option String → List PlayOb → Bool
  | _, [] => true
  | none, PlayOb.st c :: r => (c != "") && wfPlay (some c) r
  | none, PlayOb.fin _ _ :: _ => false
  | none, PlayOb.drop c :: r => (c == "") && wfPlay none r
  | some _, PlayOb.st _ :: _ => false
  | some c, PlayOb.fin c' _ :: r => (c == c') && wfPlay none r
  | some _, PlayOb.drop _ :: _ => false

/-- The chunk whose start is still unmatched after a playback trace. -/
def openOf : Option String → List PlayOb → Option String
  | p, [] => p
  | _, PlayOb.st c :: r => openOf (some c) r
  | _, PlayOb.fin _ _ :: r => openOf none r
  | p, PlayOb.drop _ :: r => openOf p r

/-- The chunks started, in start order. -/
def startedOf (l : List PlayOb) : List String :=
  l.filterMap fun o => match o with
    | PlayOb.st c => some c
    | _ => none

/-- The chunks consumed from the queue head, in order: started (played)
or dropped (discarded falsy payloads). -/
def handledOf (l : List PlayOb) : List String :=
  l.filterMap fun o => match o with
    | PlayOb.st c => some c
    | PlayOb.drop c => some c
    | _ => none

/-- The chunks pushed onto the playback queue, in arrival order. -/
def enqueuedOf (tr : List Effect) : List String :=
  tr.filterMap fun e => match e with
    | Effect.enqueue c => some c
    | _ => none

theorem playProj_append (t1 t2 : List Effect) :
    playProj (t1 ++ t2) = playProj t1 ++ playProj t2 :=
  List.filterMap_append t1 t2 _

theorem enqueuedOf_append (t1 t2 : List Effect) :
    enqueuedOf (t1 ++ t2) = enqueuedOf t1 ++ enqueuedOf t2 :=
  List.filterMap_append t1 t2 _

theorem startedOf_append (l1 l2 : List PlayOb) :
    startedOf (l1 ++ l2) = startedOf l1 ++ startedOf l2 :=
  List.filterMap_append l1 l2 _

theorem handledOf_append (l1 l2 : List PlayOb) :
    handledOf (l1 ++ l2) = handledOf l1 ++ handledOf l2 :=
  List.filterMap_append l1 l2 _

theorem openOf_append (l1 l2 : List PlayOb) :
    ∀ p, openOf p (l1 ++ l2) = openOf (openOf p l1) l2 := by
  induction l1 with
  | nil => intro p; rfl
  | cons o r ih =>
    intro p
    cases o with
    | st c =>
      simp only [List.cons_append, openOf]
      exact ih _
    | fin c ok =>
      simp only [List.cons_append, openOf]
      exact ih _
    | drop c =>
      simp only [List.cons_append, openOf]
      exact ih _

theorem wfPlay_append (l1 l2 : List PlayOb) :
    ∀ p, wfPlay p (l1 ++ l2) = (wfPlay p l1 && wfPlay (openOf p l1) l2) := by
  induction l1 with
  | nil => intro p; simp [wfPlay, openOf]
  | cons o r ih =>
    intro p
    cases p with
    | none =>
      cases o with
      | st c =>
        simp only [List.cons_append, wfPlay, openOf, List.append_eq, ih _, Bool.and_assoc]
      | fin c ok => simp only [List.cons_append, wfPlay, openOf, Bool.false_and]
      | drop c =>
        simp only [List.cons_append, wfPlay, openOf, List.append_eq, ih _, Bool.and_assoc]
    | some c =>
      cases o with
      | st c2 => simp only [List.cons_append, wfPlay, openOf, Bool.false_and]
      | fin c2 ok =>
        simp only [List.cons_append, wfPlay, openOf, List.append_eq, ih _, Bool.and_assoc]
      | drop c2 => simp only [List.cons_append, wfPlay, openOf, Bool.false_and]

/-- The playback invariant tying a session state to its effect trace:
the playback trace is serialized, its open start matches the playing ref,
and handled chunks (started or dropped, in processing order) followed by
the queued ones are exactly the arrivals. -/
def PlayInv (s : SessionState) (tr : List Effect) : Prop :=
  wfPlay none (playProj tr) = true ∧
  openOf none (playProj tr) = s.playing ∧
  handledOf (playProj tr) ++ s.audioQueue = enqueuedOf tr

theorem processAudioQueue_of_playing {s : SessionState} {c : String}
    (h : s.playing = some c) : processAudioQueue s = (s, []) := by
  simp [processAudioQueue, h]

theorem processAudioQueue_of_empty {s : SessionState}
    (hp : s.playing = none) (hq : s.audioQueue = []) :
    processAudioQueue s = (s, []) := by
  simp [processAudioQueue, hp, hq]

/-- When idle with a non-empty queue whose head is truthy (non-empty
string), processAudioQueue pops the head, marks it playing and starts it,
leaving every other field (in particular the listening/processing flags)
untouched and enqueueing nothing. -/
theorem processAudioQueue_pop {s : SessionState} {c : String} {rest : List String}
    (hp : s.playing = none) (hq : s.audioQueue = c :: rest) (hne : c ≠ "") :
    (processAudioQueue s).1.playing = some c ∧
    (processAudioQueue s).1.audioQueue = rest ∧
    (processAudioQueue s).1.isListening = s.isListening ∧
    (processAudioQueue s).1.isProcessing = s.isProcessing ∧
    (processAudioQueue s).1.isListeningRef = s.isListeningRef ∧
    playProj (processAudioQueue s).2 = [PlayOb.st c] ∧
    enqueuedOf (processAudioQueue s).2 = [] ∧
    Effect.playStart c ∈ (processAudioQueue s).2 := by
  cases hctx : s.audioContext <;>
    simp [processAudioQueue, playAudio, hp, hq, hctx, hne, playProj, enqueuedOf]

/-- When idle with a falsy (empty-string) queue head, processAudioQueue
discards it: the head is shifted off, nothing plays, the playing flag
ends cleared and nothing else changes. -/
theorem processAudioQueue_drop {s : SessionState} {rest : List String}
    (hp : s.playing = none) (hq : s.audioQueue = "" :: rest) :
    processAudioQueue s = ({s with audioQueue := rest}, [Effect.playDropped ""]) := by
  simp [processAudioQueue, hp, hq]

/-- processAudioQueue never touches the listening/processing flags. -/
theorem processAudioQueue_flags (s : SessionState) :
    (processAudioQueue s).1.isListening = s.isListening ∧
    (processAudioQueue s).1.isProcessing = s.isProcessing ∧
    (processAudioQueue s).1.isListeningRef = s.isListeningRef := by
  obtain ⟨il, ip, ts, vl, er, ws, mr, ac, lr, q, pl, n⟩ := s
  cases pl with
  | some c => simp [processAudioQueue]
  | none =>
    cases q with
    | nil => simp [processAudioQueue]
    | cons c rest =>
      by_cases hc : c = "" <;> cases ac <;>
        simp [processAudioQueue, playAudio, hc]


@[simp] theorem playProj_nil : playProj [] = [] := rfl

@[simp] theorem playProj_wsCreate_cons (i : ℕ) (l : List Effect) :
    playProj (Effect.wsCreate i :: l) = playProj l := rfl

@[simp] theorem playProj_wsSend_cons (i : ℕ) (m : Msg) (l : List Effect) :
    playProj (Effect.wsSend i m :: l) = playProj l := rfl

@[simp] theorem playProj_wsClosed_cons (i : ℕ) (l : List Effect) :
    playProj (Effect.wsClosed i :: l) = playProj l := rfl

@[simp] theorem playProj_micAcquire_cons (i : ℕ) (l : List Effect) :
    playProj (Effect.micAcquire i :: l) = playProj l := rfl

@[simp] theorem playProj_micRelease_cons (i : ℕ) (l : List Effect) :
    playProj (Effect.micRelease i :: l) = playProj l := rfl

@[simp] theorem playProj_ctxCreate_cons (i r : ℕ) (l : List Effect) :
    playProj (Effect.ctxCreate i r :: l) = playProj l := rfl

@[simp] theorem playProj_ctxClose_cons (i : ℕ) (l : List Effect) :
    playProj (Effect.ctxClose i :: l) = playProj l := rfl

@[simp] theorem playProj_enqueue_cons (c : String) (l : List Effect) :
    playProj (Effect.enqueue c :: l) = playProj l := rfl

@[simp] theorem playProj_playStart_cons (c : String) (l : List Effect) :
    playProj (Effect.playStart c :: l) = PlayOb.st c :: playProj l := rfl

@[simp] theorem playProj_playDone_cons (c : String) (ok : Bool) (l : List Effect) :
    playProj (Effect.playDone c ok :: l) = PlayOb.fin c ok :: playProj l := rfl

@[simp] theorem playProj_playDropped_cons (c : String) (l : List Effect) :
    playProj (Effect.playDropped c :: l) = PlayOb.drop c :: playProj l := rfl

@[simp] theorem playProj_wsOpened_cons (i : ℕ) (l : List Effect) :
    playProj (Effect.wsOpened i :: l) = playProj l := rfl

@[simp] theorem playProj_logError_cons (m : String) (l : List Effect) :
    playProj (Effect.logError m :: l) = playProj l := rfl

@[simp] theorem playProj_setVolume_cons (v : ℚ) (l : List Effect) :
    playProj (Effect.setVolume v :: l) = playProj l := rfl

@[simp] theorem enqueuedOf_nil : enqueuedOf [] = [] := rfl

@[simp] theorem enqueuedOf_wsCreate_cons (i : ℕ) (l : List Effect) :
    enqueuedOf (Effect.wsCreate i :: l) = enqueuedOf l := rfl

@[simp] theorem enqueuedOf_wsSend_cons (i : ℕ) (m : Msg) (l : List Effect) :
    enqueuedOf (Effect.wsSend i m :: l) = enqueuedOf l := rfl

@[simp] theorem enqueuedOf_wsClosed_cons (i : ℕ) (l : List Effect) :
    enqueuedOf (Effect.wsClosed i :: l) = enqueuedOf l := rfl

@[simp] theorem enqueuedOf_micAcquire_cons (i : ℕ) (l : List Effect) :
    enqueuedOf (Effect.micAcquire i :: l) = enqueuedOf l := rfl

@[simp] theorem enqueuedOf_micRelease_cons (i : ℕ) (l : List Effect) :
    enqueuedOf (Effect.micRelease i :: l) = enqueuedOf l := rfl

@[simp] theorem enqueuedOf_ctxCreate_cons (i r : ℕ) (l : List Effect) :
    enqueuedOf (Effect.ctxCreate i r :: l) = enqueuedOf l := rfl

@[simp] theorem enqueuedOf_ctxClose_cons (i : ℕ) (l : List Effect) :
    enqueuedOf (Effect.ctxClose i :: l) = enqueuedOf l := rfl

@[simp] theorem enqueuedOf_enqueue_cons (c : String) (l : List Effect) :
    enqueuedOf (Effect.enqueue c :: l) = c :: enqueuedOf l := rfl

@[simp] theorem enqueuedOf_playStart_cons (c : String) (l : List Effect) :
    enqueuedOf (Effect.playStart c :: l) = enqueuedOf l := rfl

@[simp] theorem enqueuedOf_playDone_cons (c : String) (ok : Bool) (l : List Effect) :
    enqueuedOf (Effect.playDone c ok :: l) = enqueuedOf l := rfl

@[simp] theorem enqueuedOf_playDropped_cons (c : String) (l : List Effect) :
    enqueuedOf (Effect.playDropped c :: l) = enqueuedOf l := rfl

@[simp] theorem enqueuedOf_wsOpened_cons (i : ℕ) (l : List Effect) :
    enqueuedOf (Effect.wsOpened i :: l) = enqueuedOf l := rfl

@[simp] theorem enqueuedOf_logError_cons (m : String) (l : List Effect) :
    enqueuedOf (Effect.logError m :: l) = enqueuedOf l := rfl

@[simp] theorem enqueuedOf_setVolume_cons (v : ℚ) (l : List Effect) :
    enqueuedOf (Effect.setVolume v :: l) = enqueuedOf l := rfl

@[simp] theorem startedOf_nil : startedOf [] = [] := rfl

@[simp] theorem startedOf_st_cons (c : String) (l : List PlayOb) :
    startedOf (PlayOb.st c :: l) = c :: startedOf l := rfl

@[simp] theorem startedOf_fin_cons (c : String) (ok : Bool) (l : List PlayOb) :
    startedOf (PlayOb.fin c ok :: l) = startedOf l := rfl

@[simp] theorem startedOf_drop_cons (c : String) (l : List PlayOb) :
    startedOf (PlayOb.drop c :: l) = startedOf l := rfl

@[simp] theorem handledOf_nil : handledOf [] = [] := rfl

@[simp] theorem handledOf_st_cons (c : String) (l : List PlayOb) :
    handledOf (PlayOb.st c :: l) = c :: handledOf l := rfl

@[simp] theorem handledOf_fin_cons (c : String) (ok : Bool) (l : List PlayOb) :
    handledOf (PlayOb.fin c ok :: l) = handledOf l := rfl

@[simp] theorem handledOf_drop_cons (c : String) (l : List PlayOb) :
    handledOf (PlayOb.drop c :: l) = c :: handledOf l := rfl

/-- Every step of the hook preserves the playback invariant. -/
theorem step_playInv (env : Env) (s : SessionState) (tr : List Effect) (e : Evt)
    (h : PlayInv s tr) : PlayInv (step env s e).1 (tr ++ (step env s e).2) := by
  obtain ⟨il, ip, ts, vl, er, ws, mr, ac, lr, q, pl, n⟩ := s
  simp only [PlayInv] at h
  obtain ⟨hwf, hopen, hfifo⟩ := h
  have ext : ∀ (s' : SessionState) (fx : List Effect),
      playProj fx = [] → enqueuedOf fx = [] → s'.playing = pl →
      s'.audioQueue = q → PlayInv s' (tr ++ fx) := by
    intro s' fx h1 h2 h3 h4
    refine ⟨?_, ?_, ?_⟩
    · rw [playProj_append, h1, List.append_nil]
      exact hwf
    · rw [playProj_append, h1, List.append_nil, h3]
      exact hopen
    · rw [playProj_append, h1, List.append_nil, h4, enqueuedOf_append, h2, List.append_nil]
      exact hfifo
  cases e with
  | wsOpen =>
    cases ws with
    | none => refine ext _ [] ?_ ?_ ?_ ?_ <;> rfl
    | some w =>
      simp only [step]
      split
      · refine ext _ _ ?_ ?_ ?_ ?_ <;> rfl
      · refine ext _ [] ?_ ?_ ?_ ?_ <;> rfl
  | wsMessage m =>
    cases m with
    | transcriptMsg t fin => refine ext _ [] ?_ ?_ ?_ ?_ <;> rfl
    | agent_response => refine ext _ [] ?_ ?_ ?_ ?_ <;> rfl
    | unknown => refine ext _ [] ?_ ?_ ?_ ?_ <;> rfl
    | audio_response p =>
      simp only [step]
      cases pl with
      | some c =>
        rw [processAudioQueue_of_playing
          (s := ⟨il, ip, ts, vl, er, ws, mr, ac, lr, q ++ [p], some c, n⟩) rfl]
        refine ⟨?_, ?_, ?_⟩
        · simpa [playProj_append] using hwf
        · simpa [playProj_append] using hopen
        · simp only [playProj_append, enqueuedOf_append, playProj_enqueue_cons,
            enqueuedOf_enqueue_cons, playProj_nil, enqueuedOf_nil, List.append_nil]
          rw [← List.append_assoc, hfifo]
      | none =>
        obtain ⟨c0, rest, hcr⟩ :=
          List.exists_cons_of_ne_nil (l := q ++ [p]) (by simp)
        by_cases hc : c0 = ""
        · subst hc
          rw [processAudioQueue_drop
            (s := ⟨il, ip, ts, vl, er, ws, mr, ac, lr, q ++ [p], none, n⟩) rfl hcr]
          refine ⟨?_, ?_, ?_⟩
          · simp only [playProj_append, playProj_enqueue_cons,
              playProj_playDropped_cons, playProj_nil]
            rw [wfPlay_append, hwf, hopen]
            simp [wfPlay]
          · simp only [playProj_append, playProj_enqueue_cons,
              playProj_playDropped_cons, playProj_nil]
            rw [openOf_append, hopen]
            rfl
          · simp only [playProj_append, enqueuedOf_append, playProj_enqueue_cons,
              enqueuedOf_enqueue_cons, playProj_playDropped_cons,
              enqueuedOf_playDropped_cons, playProj_nil, enqueuedOf_nil,
              handledOf_append, handledOf_drop_cons, handledOf_nil, List.append_nil]
            rw [List.append_assoc]
            rw [show [""] ++ rest = q ++ [p] from by simpa using hcr.symm]
            rw [← List.append_assoc, hfifo]
        · have hpop := processAudioQueue_pop
            (s := ⟨il, ip, ts, vl, er, ws, mr, ac, lr, q ++ [p], none, n⟩)
            (c := c0) rfl hcr hc
          obtain ⟨p1, p2, _, _, _, p6, p7, _⟩ := hpop
          refine ⟨?_, ?_, ?_⟩
          · simp only [playProj_append, playProj_enqueue_cons, p6]
            rw [wfPlay_append, hwf, hopen]
            simp [wfPlay, hc]
          · simp only [playProj_append, playProj_enqueue_cons, p6]
            rw [openOf_append, hopen, p1]
            rfl
          · simp only [playProj_append, enqueuedOf_append, playProj_enqueue_cons,
              enqueuedOf_enqueue_cons, p6, p7, handledOf_append, handledOf_st_cons,
              handledOf_nil, List.append_nil, p2]
            rw [List.append_assoc]
            rw [show [c0] ++ rest = q ++ [p] from by simpa using hcr.symm]
            rw [← List.append_assoc, hfifo]
  | wsMalformed => refine ext _ _ ?_ ?_ ?_ ?_ <;> rfl
  | wsError =>
    cases ws with
    | none => refine ext _ _ ?_ ?_ ?_ ?_ <;> rfl
    | some w => refine ext _ _ ?_ ?_ ?_ ?_ <;> rfl
  | wsClose =>
    cases ws with
    | none => refine ext _ [] ?_ ?_ ?_ ?_ <;> rfl
    | some w => refine ext _ [] ?_ ?_ ?_ ?_ <;> rfl
  | audioBlock b =>
    simp only [step]
    cases lr with
    | false => refine ext _ [] ?_ ?_ ?_ ?_ <;> rfl
    | true =>
      cases ws with
      | none => refine ext _ _ ?_ ?_ ?_ ?_ <;> rfl
      | some w =>
        by_cases hrs : w.readyState = WSt.OPEN
        · simp only [if_pos hrs]
          refine ext _ _ ?_ ?_ ?_ ?_ <;> rfl
        · simp only [if_neg hrs]
          refine ext _ _ ?_ ?_ ?_ ?_ <;> rfl
  | playEnded =>
    simp only [step]
    cases pl with
    | none => refine ext _ [] ?_ ?_ ?_ ?_ <;> rfl
    | some c =>
      cases q with
      | nil =>
        rw [processAudioQueue_of_empty
          (s := ⟨il, ip, ts, vl, er, ws, mr, ac, lr, [], none, n⟩) rfl rfl]
        refine ⟨?_, ?_, ?_⟩
        · simp only [playProj_append, playProj_playDone_cons, playProj_nil]
          rw [wfPlay_append, hwf, hopen]
          simp [wfPlay]
        · simp only [playProj_append, playProj_playDone_cons, playProj_nil]
          rw [openOf_append, hopen]
          rfl
        · simp only [playProj_append, enqueuedOf_append, playProj_playDone_cons,
            enqueuedOf_playDone_cons, playProj_nil, enqueuedOf_nil, handledOf_append,
            handledOf_fin_cons, handledOf_nil, List.append_nil]
          simpa using hfifo
      | cons d ds =>
        by_cases hd : d = ""
        · subst hd
          rw [processAudioQueue_drop
            (s := ⟨il, ip, ts, vl, er, ws, mr, ac, lr, "" :: ds, none, n⟩) rfl rfl]
          refine ⟨?_, ?_, ?_⟩
          · simp only [playProj_append, playProj_playDone_cons,
              playProj_playDropped_cons, playProj_nil]
            rw [wfPlay_append, hwf, hopen]
            simp [wfPlay]
          · simp only [playProj_append, playProj_playDone_cons,
              playProj_playDropped_cons, playProj_nil]
            rw [openOf_append, hopen]
            rfl
          · simp only [playProj_append, enqueuedOf_append, playProj_playDone_cons,
              enqueuedOf_playDone_cons, playProj_playDropped_cons,
              enqueuedOf_playDropped_cons, playProj_nil, enqueuedOf_nil,
              handledOf_append, handledOf_fin_cons, handledOf_drop_cons,
              handledOf_nil, List.append_nil]
            rw [List.append_assoc]
            exact hfifo
        · have hpop := processAudioQueue_pop
            (s := ⟨il, ip, ts, vl, er, ws, mr, ac, lr, d :: ds, none, n⟩)
            (c := d) rfl rfl hd
          obtain ⟨p1, p2, _, _, _, p6, p7, _⟩ := hpop
          refine ⟨?_, ?_, ?_⟩
          · simp only [playProj_append, playProj_playDone_cons, p6]
            rw [wfPlay_append, hwf, hopen]
            simp [wfPlay, hd]
          · simp only [playProj_append, playProj_playDone_cons, p6]
            rw [openOf_append, hopen, p1]
            rfl
          · simp only [playProj_append, enqueuedOf_append, playProj_playDone_cons,
              enqueuedOf_playDone_cons, p6, p7, handledOf_append, handledOf_fin_cons,
              handledOf_st_cons, handledOf_nil, List.append_nil, p2]
            rw [List.append_assoc]
            exact hfifo
  | playFailed =>
    simp only [step]
    cases pl with
    | none => refine ext _ [] ?_ ?_ ?_ ?_ <;> rfl
    | some c =>
      cases q with
      | nil =>
        rw [processAudioQueue_of_empty
          (s := ⟨il, ip, ts, vl, er, ws, mr, ac, lr, [], none, n⟩) rfl rfl]
        refine ⟨?_, ?_, ?_⟩
        · simp only [playProj_append, playProj_logError_cons, playProj_playDone_cons,
            playProj_nil]
          rw [wfPlay_append, hwf, hopen]
          simp [wfPlay]
        · simp only [playProj_append, playProj_logError_cons, playProj_playDone_cons,
            playProj_nil]
          rw [openOf_append, hopen]
          rfl
        · simp only [playProj_append, enqueuedOf_append, playProj_logError_cons,
            playProj_playDone_cons, enqueuedOf_logError_cons, enqueuedOf_playDone_cons,
            playProj_nil, enqueuedOf_nil, handledOf_append, handledOf_fin_cons,
            handledOf_nil, List.append_nil]
          simpa using hfifo
      | cons d ds =>
        by_cases hd : d = ""
        · subst hd
          rw [processAudioQueue_drop
            (s := ⟨il, ip, ts, vl, er, ws, mr, ac, lr, "" :: ds, none, n⟩) rfl rfl]
          refine ⟨?_, ?_, ?_⟩
          · simp only [playProj_append, playProj_logError_cons, playProj_playDone_cons,
              playProj_playDropped_cons, playProj_nil]
            rw [wfPlay_append, hwf, hopen]
            simp [wfPlay]
          · simp only [playProj_append, playProj_logError_cons, playProj_playDone_cons,
              playProj_playDropped_cons, playProj_nil]
            rw [openOf_append, hopen]
            rfl
          · simp only [playProj_append, enqueuedOf_append, playProj_logError_cons,
              playProj_playDone_cons, enqueuedOf_logError_cons, enqueuedOf_playDone_cons,
              playProj_playDropped_cons, enqueuedOf_playDropped_cons, playProj_nil,
              enqueuedOf_nil, handledOf_append, handledOf_fin_cons, handledOf_drop_cons,
              handledOf_nil, List.append_nil]
            rw [List.append_assoc]
            exact hfifo
        · have hpop := processAudioQueue_pop
            (s := ⟨il, ip, ts, vl, er, ws, mr, ac, lr, d :: ds, none, n⟩)
            (c := d) rfl rfl hd
          obtain ⟨p1, p2, _, _, _, p6, p7, _⟩ := hpop
          refine ⟨?_, ?_, ?_⟩
          · simp only [playProj_append, playProj_logError_cons, playProj_playDone_cons, p6]
            rw [wfPlay_append, hwf, hopen]
            simp [wfPlay, hd]
          · simp only [playProj_append, playProj_logError_cons, playProj_playDone_cons, p6]
            rw [openOf_append, hopen, p1]
            rfl
          · simp only [playProj_append, enqueuedOf_append, playProj_logError_cons,
              playProj_playDone_cons, enqueuedOf_logError_cons, enqueuedOf_playDone_cons,
              p6, p7, handledOf_append, handledOf_fin_cons, handledOf_st_cons,
              handledOf_nil, List.append_nil, p2]
            rw [List.append_assoc]
            exact hfifo
  | startRecording granted =>
    simp only [step, startRecording, connectWebSocket]
    cases ws with
    | none =>
      cases granted <;> refine ext _ _ ?_ ?_ ?_ ?_ <;> rfl
    | some w =>
      by_cases hrs : w.readyState = WSt.OPEN
      · simp only [if_pos hrs]
        cases granted <;> refine ext _ _ ?_ ?_ ?_ ?_ <;> rfl
      · simp only [if_neg hrs]
        cases granted <;> refine ext _ _ ?_ ?_ ?_ ?_ <;> rfl
  | stopRecording =>
    simp only [step, stopRecordingStep]
    cases mr with
    | none => refine ext _ _ ?_ ?_ ?_ ?_ <;> rfl
    | some i => refine ext _ _ ?_ ?_ ?_ ?_ <;> rfl
  | unmount =>
    simp only [step]
    cases ws with
    | none =>
      cases ac with
      | none => refine ext _ _ ?_ ?_ ?_ ?_ <;> rfl
      | some i => refine ext _ _ ?_ ?_ ?_ ?_ <;> rfl
    | some w =>
      cases ac with
      | none => refine ext _ _ ?_ ?_ ?_ ?_ <;> rfl
      | some i => refine ext _ _ ?_ ?_ ?_ ?_ <;> rfl

/-- Runs preserve the playback invariant. -/
theorem steps_playInv (env : Env) : ∀ (evs : List Evt) (s : SessionState) (tr : List Effect),
    PlayInv s tr → PlayInv (steps env s evs).1 (tr ++ (steps env s evs).2)
  | [], s, tr, h => by simpa [steps] using h
  | e :: rest, s, tr, h => by
    have h1 := step_playInv env s tr e h
    have h2 := steps_playInv env rest (step env s e).1 (tr ++ (step env s e).2) h1
    simpa [steps, List.append_assoc] using h2

/-- The playback invariant holds over every full run from mount. -/
theorem runSession_playInv (env : Env) (evs : List Evt) :
    PlayInv (runSession env evs).1 (runSession env evs).2 := by
  have h0 : PlayInv sessionInit.1 sessionInit.2 := by
    refine ⟨rfl, rfl, rfl⟩
  simpa [runSession] using steps_playInv env evs sessionInit.1 sessionInit.2 h0

/-- **C1 (counterexample).** The claim says every arriving chunk is
played, strictly in arrival order.  An empty (falsy) `audio_response`
payload refutes it: on the run that receives payload `""` and then `"A"`,
the `if (nextAudio)` check in processAudioQueue shifts `""` off and
silently discards it — no playback, no completion callback — and `"A"`
then plays although its predecessor never completed: the chunks played
(`["A"]`, with an empty remaining queue) are not the arrivals
(`["", "A"]`). -/
theorem claimC1_counterexample :
    startedOf (playProj (runSession env0 [Evt.wsMessage (InMsg.audio_response ""),
        Evt.wsMessage (InMsg.audio_response "A")]).2) ++
      (runSession env0 [Evt.wsMessage (InMsg.audio_response ""),
        Evt.wsMessage (InMsg.audio_response "A")]).1.audioQueue ≠
      enqueuedOf (runSession env0 [Evt.wsMessage (InMsg.audio_response ""),
        Evt.wsMessage (InMsg.audio_response "A")]).2 ∧
    enqueuedOf (runSession env0 [Evt.wsMessage (InMsg.audio_response ""),
        Evt.wsMessage (InMsg.audio_response "A")]).2 = ["", "A"] ∧
    playProj (runSession env0 [Evt.wsMessage (InMsg.audio_response ""),
        Evt.wsMessage (InMsg.audio_response "A")]).2 =
      [PlayOb.drop "", PlayOb.st "A"] ∧
    (runSession env0 [Evt.wsMessage (InMsg.audio_response ""),
        Evt.wsMessage (InMsg.audio_response "A")]).1.audioQueue = [] :=
  ⟨by decide, rfl, rfl, rfl⟩

/-- **C1 (amended).** For every run of the hook (any environment, any
event sequence), the queue is consumed strictly in arrival (FIFO) order:
in arrival order, each `audio_response` chunk is either started (a
non-empty payload) or silently dropped without playing (an empty — falsy
— payload fails the `if (nextAudio)` check); the started chunks are
strictly serialized — a chunk starts only when no chunk is open, every
completion (successful `onended` or decode-failure resolve) names the
open chunk, so a chunk begins only after the previously started chunk's
completion callback has fired, and nothing is dropped while a chunk is
sounding — so audible intervals never overlap. -/
theorem claimC1_amended (env : Env) (evs : List Evt) :
    wfPlay none (playProj (runSession env evs).2) = true ∧
    openOf none (playProj (runSession env evs).2) = (runSession env evs).1.playing ∧
    handledOf (playProj (runSession env evs).2) ++ (runSession env evs).1.audioQueue =
      enqueuedOf (runSession env evs).2 :=
  runSession_playInv env evs

/-- Concrete state for the C7 counterexample: chunk A playing, a falsy
empty payload queued ahead of chunk B. -/
def c7cex : SessionState :=
  { blankState with playing := some "A", audioQueue := ["", "B"], audioContext := some 5 }

/-- **C7 (counterexample).** The claim says a decode failure never stalls
the queue: the next queued chunk still plays.  With chunk A playing and
queue `["", "B"]`, the failure logs and clears the flag, but
processAudioQueue then shifts the falsy `""` head and discards it without
playing and without recursing: nothing is playing, no start is issued,
and `"B"` stays queued — the queue is stalled until the next trigger. -/
theorem claimC7_counterexample :
    (step env0 c7cex Evt.playFailed).1.playing = none ∧
    (step env0 c7cex Evt.playFailed).1.audioQueue = ["B"] ∧
    (step env0 c7cex Evt.playFailed).2 =
      [Effect.logError "Error playing audio", Effect.playDone "A" false,
       Effect.playDropped ""] :=
  ⟨rfl, rfl, rfl⟩

/-- **C7 (amended).** If decoding/playing the current chunk fails while
another chunk is queued and that next chunk is non-empty (truthy), the
failure is logged, the finished chunk is marked done (the
currently-playing flag is cleared), and the next queued chunk starts
playing immediately; the `processing` and `listening` flags (and the
internal listening ref) are unaffected.  (An empty — falsy — queue head
is instead dequeued and discarded without playing, stalling the rest of
the queue until the next trigger; see the counterexample.) -/
theorem claimC7_amended (env : Env) (s : SessionState) (c d : String) (rest : List String)
    (hp : s.playing = some c) (hq : s.audioQueue = d :: rest) (hd : d ≠ "") :
    (step env s Evt.playFailed).2.head? = some (Effect.logError "Error playing audio") ∧
    Effect.playDone c false ∈ (step env s Evt.playFailed).2 ∧
    Effect.playStart d ∈ (step env s Evt.playFailed).2 ∧
    (step env s Evt.playFailed).1.playing = some d ∧
    (step env s Evt.playFailed).1.audioQueue = rest ∧
    (step env s Evt.playFailed).1.isProcessing = s.isProcessing ∧
    (step env s Evt.playFailed).1.isListening = s.isListening ∧
    (step env s Evt.playFailed).1.isListeningRef = s.isListeningRef := by
  have hpop := processAudioQueue_pop (s := {s with playing := none})
    (c := d) rfl (by simpa using hq) hd
  obtain ⟨p1, p2, p3, p4, p5, _, _, p8⟩ := hpop
  simp only [step, hp]
  refine ⟨rfl, ?_, ?_, p1, p2, p4, p3, p5⟩
  · exact List.mem_cons_of_mem _ (List.mem_cons_self _ _)
  · exact List.mem_cons_of_mem _ (List.mem_cons_of_mem _ p8)

/-- Concrete state for the C7 witness: chunk A playing, chunk B queued. -/
def c7state : SessionState :=
  { blankState with playing := some "A", audioQueue := ["B"], audioContext := some 5 }

/-- **C7 (amended, witness).** The failure-recovery theorem at a concrete
state with a non-empty next chunk. -/
theorem claimC7_witness :
    c7state.playing = some "A" ∧ c7state.audioQueue = ["B"] ∧ ("B" : String) ≠ "" ∧
    (step env0 c7state Evt.playFailed).2.head? = some (Effect.logError "Error playing audio") ∧
    Effect.playDone "A" false ∈ (step env0 c7state Evt.playFailed).2 ∧
    Effect.playStart "B" ∈ (step env0 c7state Evt.playFailed).2 ∧
    (step env0 c7state Evt.playFailed).1.playing = some "B" ∧
    (step env0 c7state Evt.playFailed).1.audioQueue = [] ∧
    (step env0 c7state Evt.playFailed).1.isProcessing = c7state.isProcessing ∧
    (step env0 c7state Evt.playFailed).1.isListening = c7state.isListening ∧
    (step env0 c7state Evt.playFailed).1.isListeningRef = c7state.isListeningRef := by
  have h := claimC7_amended env0 c7state "A" "B" [] rfl rfl (by decide)
  exact ⟨rfl, rfl, by decide, h.1, h.2.1, h.2.2.1, h.2.2.2.1, h.2.2.2.2.1,
    h.2.2.2.2.2.1, h.2.2.2.2.2.2.1, h.2.2.2.2.2.2.2⟩

/-- **C2 (code bug).** Failing input: startRecording (granted), then
unmount.  The useEffect cleanup closes the socket and the audio context
but never invokes the stored capture stop closure, so the microphone
stream acquired by startRecording is still open after unmount — the
claim (destruction releases every open capture handle, even mid-flight)
is violated by the code. -/
theorem claimC2_bug :
    openMicCount (runSession env0 [Evt.startRecording true, Evt.unmount]).2 = 1 ∧
    micAcquiredIds (runSession env0 [Evt.startRecording true, Evt.unmount]).2 = [2] ∧
    micReleasedIds (runSession env0 [Evt.startRecording true, Evt.unmount]).2 = [] ∧
    openCtxCount (runSession env0 [Evt.startRecording true, Evt.unmount]).2 = 0 :=
  ⟨rfl, rfl, rfl, rfl⟩

/-- **C9 (code bug).** Failing input: startRecording, stopRecording,
startRecording (normal mic toggling).  stopRecording stops the stream's
tracks but does not close the 16 kHz AudioContext, and the second
startRecording opens a fresh context, overwriting the ref while the first
context is never closed: two output-device handles are open at once,
violating the at-most-one invariant. -/
theorem claimC9_bug :
    openCtxCount (runSession env0
      [Evt.startRecording true, Evt.stopRecording, Evt.startRecording true]).2 = 2 ∧
    ctxCreatedIds (runSession env0
      [Evt.startRecording true, Evt.stopRecording, Evt.startRecording true]).2 = [3, 6] ∧
    ctxClosedIds (runSession env0
      [Evt.startRecording true, Evt.stopRecording, Evt.startRecording true]).2 = [] :=
  ⟨rfl, rfl, rfl⟩

/-- The reachable state of the C8 counterexample run: recording started,
then a socket error (observable listening forced off, internal ref left
true), then a denied startRecording reconnects, and the new socket opens. -/
def c8state : SessionState :=
  (runSession env0 [Evt.wsOpen, Evt.startRecording true, Evt.wsError,
    Evt.startRecording false, Evt.wsOpen]).1

/-- **C8 (counterexample).** The claim says no `audio_chunk` is ever sent
while the observable listening flag is false.  In the reachable state
`c8state` the observable flag is false (forced off by the socket error),
the audio graph from the first startRecording is still live, the internal
listening ref is still true, and the reconnected socket is open — so the
next captured block IS sent.  The claim as stated is false. -/
theorem claimC8_counterexample :
    c8state.isListening = false ∧
    c8state.isListeningRef = true ∧
    Effect.wsSend 3 (Msg.audio_chunk (chunkPayload [1])) ∈
      (step env0 c8state (Evt.audioBlock [1])).2 := by
  refine ⟨rfl, rfl, ?_⟩
  show Effect.wsSend 3 (Msg.audio_chunk (chunkPayload [1])) ∈
    [Effect.setVolume (computedVolume env0 [1]),
     Effect.wsSend 3 (Msg.audio_chunk (chunkPayload [1]))]
  exact List.mem_cons_of_mem _ (List.mem_cons_self _ _)

/-- **C8 (amended).** Whenever the internal listening ref is false —
which holds initially and after every stopRecording(), the cases the
sources give — the per-block capture callback returns immediately: no
`audio_chunk` message is sent and nothing changes, regardless of
audio-graph activity or socket state.  (After a socket error only the
observable flag is cleared; the internal ref stays set, so the guard does
not re-establish the property for the observable flag.) -/
theorem claimC8_amended (env : Env) (s : SessionState) (b : List ℚ)
    (h : s.isListeningRef = false) :
    step env s (Evt.audioBlock b) = (s, []) ∧
    (step env s Evt.stopRecording).1.isListeningRef = false := by
  constructor
  · simp [step, h]
  · rfl

/-- **C8 (amended, witness).** The amended theorem at the freshly mounted
state and a one-sample block. -/
theorem claimC8_witness :
    blankState.isListeningRef = false ∧
    step env0 blankState (Evt.audioBlock [1]) = (blankState, []) ∧
    (step env0 blankState Evt.stopRecording).1.isListeningRef = false :=
  ⟨rfl, (claimC8_amended env0 blankState [1] rfl).1,
    (claimC8_amended env0 blankState [1] rfl).2⟩

/-- The playback scheduler never releases the microphone. -/
theorem processAudioQueue_no_micRelease (s : SessionState) (i : ℕ) :
    Effect.micRelease i ∉ (processAudioQueue s).2 := by
  obtain ⟨il, ip, ts, vl, er, ws, mr, ac, lr, q, pl, n⟩ := s
  cases pl with
  | some c => simp [processAudioQueue]
  | none =>
    cases q with
    | nil => simp [processAudioQueue]
    | cons c rest =>
      by_cases hc : c = "" <;> cases ac <;>
        simp [processAudioQueue, playAudio, hc]

/-- The only handler that stops the microphone stream's tracks is
stopRecording's stored stop closure. -/
theorem step_micRelease_only (env : Env) (s : SessionState) (e : Evt) (i : ℕ)
    (hm : Effect.micRelease i ∈ (step env s e).2) : e = Evt.stopRecording := by
  obtain ⟨il, ip, ts, vl, er, ws, mr, ac, lr, q, pl, n⟩ := s
  cases e with
  | stopRecording => rfl
  | wsOpen =>
    exfalso
    cases ws with
    | none => simp [step] at hm
    | some w =>
      simp only [step] at hm
      split at hm <;> simp at hm
  | wsMessage m =>
    exfalso
    cases m with
    | transcriptMsg t fin => simp [step] at hm
    | agent_response => simp [step] at hm
    | unknown => simp [step] at hm
    | audio_response p =>
      simp only [step, List.mem_cons] at hm
      rcases hm with h | h
      · exact absurd h (by simp)
      · exact absurd h (processAudioQueue_no_micRelease _ i)
  | wsMalformed =>
    exfalso
    simp [step] at hm
  | wsError =>
    exfalso
    cases ws <;> simp [step] at hm
  | wsClose =>
    exfalso
    cases ws <;> simp [step] at hm
  | audioBlock b =>
    exfalso
    cases lr with
    | false => simp [step] at hm
    | true =>
      cases ws with
      | none => simp [step] at hm
      | some w =>
        simp only [step] at hm
        by_cases hrs : w.readyState = WSt.OPEN
        · rw [if_pos hrs] at hm
          simp at hm
        · rw [if_neg hrs] at hm
          simp at hm
  | playEnded =>
    exfalso
    cases pl with
    | none => simp [step] at hm
    | some c =>
      simp only [step, List.mem_cons] at hm
      rcases hm with h | h
      · exact absurd h (by simp)
      · exact absurd h (processAudioQueue_no_micRelease _ i)
  | playFailed =>
    exfalso
    cases pl with
    | none => simp [step] at hm
    | some c =>
      simp only [step, List.mem_cons] at hm
      rcases hm with h | h | h
      · exact absurd h (by simp)
      · exact absurd h (by simp)
      · exact absurd h (processAudioQueue_no_micRelease _ i)
  | startRecording granted =>
    exfalso
    cases ws with
    | none => cases granted <;> simp [step, startRecording, connectWebSocket] at hm
    | some w =>
      by_cases hrs : w.readyState = WSt.OPEN <;>
        cases granted <;>
          simp [step, startRecording, connectWebSocket, hrs] at hm
  | unmount =>
    exfalso
    cases ws <;> cases ac <;> simp [step] at hm

/-- **C10.** After a socket error while recording, the capture pipeline
keeps running: the error handler clears only the observable listening
flag, leaving the internal listening ref, the stored capture closure, the
queue, the playing flag and the volume untouched; with the ref still
true, every subsequent captured block still computes and publishes the
RMS volume and still encodes and sends its chunk whenever the socket ref
is OPEN; and the microphone is released only by an explicit
stopRecording() (in particular, never by the error handler) — so only by
stopRecording or unmount, as claimed. -/
theorem claimC10 (env : Env) (s : SessionState) (b : List ℚ) (e : Evt) (i : ℕ)
    (h : s.isListeningRef = true) :
    (step env s Evt.wsError).1.isListeningRef = true ∧
    (step env s Evt.wsError).1.isListening = false ∧
    (step env s Evt.wsError).1.mediaRecorder = s.mediaRecorder ∧
    (step env s Evt.wsError).1.audioQueue = s.audioQueue ∧
    (step env s Evt.wsError).1.playing = s.playing ∧
    (step env s Evt.wsError).1.volume = s.volume ∧
    (Effect.setVolume (computedVolume env b) ∈ (step env s (Evt.audioBlock b)).2) ∧
    (step env s (Evt.audioBlock b)).1.volume = computedVolume env b ∧
    (∀ w, s.websocket = some w → w.readyState = WSt.OPEN →
      Effect.wsSend w.id (Msg.audio_chunk (chunkPayload b)) ∈
        (step env s (Evt.audioBlock b)).2) ∧
    (Effect.micRelease i ∈ (step env s e).2 →
      e = Evt.stopRecording ∨ e = Evt.unmount) := by
  obtain ⟨il, ip, ts, vl, er, ws, mr, ac, lr, q, pl, n⟩ := s
  subst h
  refine ⟨?_, ?_, ?_, ?_, ?_, ?_, ?_, ?_, ?_, ?_⟩
  · cases ws <;> rfl
  · cases ws <;> rfl
  · cases ws <;> rfl
  · cases ws <;> rfl
  · cases ws <;> rfl
  · cases ws <;> rfl
  · cases ws with
    | none => simp [step]
    | some w =>
      by_cases hrs : w.readyState = WSt.OPEN <;> simp [step, hrs]
  · cases ws with
    | none => rfl
    | some w =>
      simp only [step, reduceIte]
      by_cases hrs : w.readyState = WSt.OPEN
      · rw [if_pos hrs]
      · rw [if_neg hrs]
  · intro w hw hrs
    cases ws with
    | none => exact absurd hw (by simp)
    | some w2 =>
      have : w2 = w := by
        injection hw
      subst this
      simp [step, hrs]
  · intro hm
    exact Or.inl (step_micRelease_only env _ e i hm)

/-- Concrete recording-in-progress state for the C10 witness. -/
def c10state : SessionState :=
  { blankState with
    isListeningRef := true
    isListening := true
    websocket := some ⟨7, WSt.OPEN⟩
    mediaRecorder := some 4 }

/-- **C10 (witness).** The error-resilience theorem at a concrete
recording state, block `[1]`, event stopRecording and stream id 4. -/
theorem claimC10_witness :
    c10state.isListeningRef = true ∧
    ((step env0 c10state Evt.wsError).1.isListeningRef = true ∧
     (step env0 c10state Evt.wsError).1.isListening = false ∧
     (step env0 c10state Evt.wsError).1.mediaRecorder = c10state.mediaRecorder ∧
     (step env0 c10state Evt.wsError).1.audioQueue = c10state.audioQueue ∧
     (step env0 c10state Evt.wsError).1.playing = c10state.playing ∧
     (step env0 c10state Evt.wsError).1.volume = c10state.volume ∧
     (Effect.setVolume (computedVolume env0 [1]) ∈ (step env0 c10state (Evt.audioBlock [1])).2) ∧
     (step env0 c10state (Evt.audioBlock [1])).1.volume = computedVolume env0 [1] ∧
     (∀ w, c10state.websocket = some w → w.readyState = WSt.OPEN →
       Effect.wsSend w.id (Msg.audio_chunk (chunkPayload [1])) ∈
         (step env0 c10state (Evt.audioBlock [1])).2) ∧
     (Effect.micRelease 4 ∈ (step env0 c10state Evt.stopRecording).2 →
       Evt.stopRecording = Evt.stopRecording ∨ Evt.stopRecording = Evt.unmount)) :=
  ⟨rfl, claimC10 env0 c10state [1] Evt.stopRecording 4 rfl⟩

@[simp] theorem allSends_nil : allSends [] = [] := rfl

@[simp] theorem allSends_setVolume_cons (v : ℚ) (l : List Effect) :
    allSends (Effect.setVolume v :: l) = allSends l := rfl

@[simp] theorem allSends_wsSend_cons (i : ℕ) (m : Msg) (l : List Effect) :
    allSends (Effect.wsSend i m :: l) = (i, m) :: allSends l := rfl

theorem allSends_append (t1 t2 : List Effect) :
    allSends (t1 ++ t2) = allSends t1 ++ allSends t2 :=
  List.filterMap_append t1 t2 _

/-- Whenever the observable `listening` flag is set, the internal
listening ref is set too: every handler that sets `isListening` true
(only startRecording's success path) also sets the ref, and the ref is
cleared only together with the flag (stopRecording); ws.onerror clears
only the flag. -/
theorem step_listen_ref (env : Env) (s : SessionState) (e : Evt)
    (h : s.isListening = true → s.isListeningRef = true) :
    (step env s e).1.isListening = true → (step env s e).1.isListeningRef = true := by
  obtain ⟨il, ip, ts, vl, er, ws, mr, ac, lr, q, pl, n⟩ := s
  cases e with
  | wsOpen =>
    cases ws with
    | none => exact h
    | some w =>
      by_cases hrs : w.readyState = WSt.CONNECTING <;>
        simp only [step, if_pos, if_neg, hrs, reduceIte] <;> exact h
  | wsMessage m =>
    cases m with
    | transcriptMsg t fin => exact h
    | agent_response => exact h
    | unknown => exact h
    | audio_response p =>
      simp only [step]
      cases pl with
      | some c =>
        rw [processAudioQueue_of_playing
          (s := ⟨il, ip, ts, vl, er, ws, mr, ac, lr, q ++ [p], some c, n⟩) rfl]
        exact h
      | none =>
        obtain ⟨f1, _, f3⟩ := processAudioQueue_flags
          ⟨il, ip, ts, vl, er, ws, mr, ac, lr, q ++ [p], none, n⟩
        rw [f1, f3]
        exact h
  | wsMalformed => exact h
  | wsError =>
    cases ws with
    | none =>
      intro hx
      simp [step] at hx
    | some w =>
      intro hx
      simp [step] at hx
  | wsClose =>
    cases ws with
    | none => exact h
    | some w => exact h
  | audioBlock b =>
    cases lr with
    | false => exact h
    | true =>
      cases ws with
      | none => exact fun _ => rfl
      | some w =>
        by_cases hrs : w.readyState = WSt.OPEN <;> simp [step, hrs]
  | playEnded =>
    simp only [step]
    cases pl with
    | none => exact h
    | some c =>
      obtain ⟨f1, _, f3⟩ := processAudioQueue_flags
        ⟨il, ip, ts, vl, er, ws, mr, ac, lr, q, none, n⟩
      rw [f1, f3]
      exact h
  | playFailed =>
    simp only [step]
    cases pl with
    | none => exact h
    | some c =>
      obtain ⟨f1, _, f3⟩ := processAudioQueue_flags
        ⟨il, ip, ts, vl, er, ws, mr, ac, lr, q, none, n⟩
      rw [f1, f3]
      exact h
  | startRecording granted =>
    simp only [step, startRecording, connectWebSocket]
    cases ws with
    | none => cases granted <;> intro hx <;> first | rfl | exact h hx
    | some w =>
      by_cases hrs : w.readyState = WSt.OPEN <;>
        simp only [if_pos, if_neg, hrs, reduceIte] <;>
          cases granted <;> intro hx <;> first | rfl | exact h hx
  | stopRecording =>
    intro hx
    simp [step, stopRecordingStep] at hx
  | unmount =>
    cases ws <;> cases ac <;> exact h

/-- The listening-implies-ref invariant holds over whole runs. -/
theorem steps_listen_ref (env : Env) :
    ∀ (evs : List Evt) (s : SessionState),
    (s.isListening = true → s.isListeningRef = true) →
    ((steps env s evs).1.isListening = true → (steps env s evs).1.isListeningRef = true)
  | [], _, h => h
  | e :: rest, s, h =>
    steps_listen_ref env rest (step env s e).1 (step_listen_ref env s e h)

/-- From mount, observable listening true implies the internal ref is true. -/
theorem runSession_listen_ref (env : Env) (evs : List Evt)
    (h : (runSession env evs).1.isListening = true) :
    (runSession env evs).1.isListeningRef = true :=
  steps_listen_ref env evs sessionInit.1 (fun hx => hx) h

/-- While the internal listening ref and an OPEN socket persist, each
captured block produces exactly one chunk send, in capture order. -/
theorem sendBlocks (env : Env) :
    ∀ (blocks : List (List ℚ)) (s : SessionState) (w : Sock),
    s.isListeningRef = true → s.websocket = some w → w.readyState = WSt.OPEN →
    allSends (steps env s (blocks.map Evt.audioBlock)).2 =
      blocks.map (fun b => (w.id, Msg.audio_chunk (chunkPayload b)))
  | [], _, _, _, _, _ => rfl
  | b :: rest, s, w, h1, h2, h3 => by
    have hstep : step env s (Evt.audioBlock b) =
        ({s with volume := computedVolume env b},
         [Effect.setVolume (computedVolume env b),
          Effect.wsSend w.id (Msg.audio_chunk (chunkPayload b))]) := by
      simp [step, h1, h2, h3]
    have ih := sendBlocks env rest {s with volume := computedVolume env b} w h1 h2 h3
    simp only [List.map_cons, steps, hstep, allSends_append, allSends_setVolume_cons,
      allSends_wsSend_cons, allSends_nil, ih]
    rfl

/-- **C3.** In any reachable state where the observable `listening` flag
is true and the socket is OPEN, processing a sequence of captured blocks
sends exactly one `audio_chunk` message per block — no batching, no
duplication — in capture order on that socket, and each payload decodes
(atob) to a byte sequence of length exactly `2 × block_sample_count`. -/
theorem claimC3 (env : Env) (evs : List Evt) (blocks : List (List ℚ)) (w : Sock)
    (hl : (runSession env evs).1.isListening = true)
    (hw : (runSession env evs).1.websocket = some w)
    (hrs : w.readyState = WSt.OPEN) :
    allSends (steps env (runSession env evs).1 (blocks.map Evt.audioBlock)).2 =
      blocks.map (fun b => (w.id, Msg.audio_chunk (chunkPayload b))) ∧
    ∀ b ∈ blocks, (b64decode (chunkPayload b)).length = 2 * b.length := by
  have href := runSession_listen_ref env evs hl
  exact ⟨sendBlocks env blocks _ w href hw hrs,
    fun b _ => decoded_payload_length b⟩

/-- **C3 (witness).** The per-block send theorem after a concrete run
(socket opened, recording granted) on the one-sample block `[1]`. -/
theorem claimC3_witness :
    (runSession env0 [Evt.wsOpen, Evt.startRecording true]).1.isListening = true ∧
    (runSession env0 [Evt.wsOpen, Evt.startRecording true]).1.websocket =
      some ⟨0, WSt.OPEN⟩ ∧
    (allSends (steps env0 (runSession env0 [Evt.wsOpen, Evt.startRecording true]).1
        ([[1]].map Evt.audioBlock)).2 =
      [[1]].map (fun b => ((0 : ℕ), Msg.audio_chunk (chunkPayload b))) ∧
     ∀ b ∈ [([1] : List ℚ)], (b64decode (chunkPayload b)).length = 2 * b.length) :=
  ⟨rfl, rfl,
    claimC3 env0 [Evt.wsOpen, Evt.startRecording true] [[1]] ⟨0, WSt.OPEN⟩ rfl rfl rfl⟩

@[simp] theorem sentOn_nil (i : ℕ) : sentOn i [] = [] := rfl

@[simp] theorem sentOn_wsCreate_cons (i j : ℕ) (l : List Effect) :
    sentOn i (Effect.wsCreate j :: l) = sentOn i l := rfl

@[simp] theorem sentOn_wsOpened_cons (i j : ℕ) (l : List Effect) :
    sentOn i (Effect.wsOpened j :: l) = sentOn i l := rfl

@[simp] theorem sentOn_wsClosed_cons (i j : ℕ) (l : List Effect) :
    sentOn i (Effect.wsClosed j :: l) = sentOn i l := rfl

@[simp] theorem sentOn_micAcquire_cons (i j : ℕ) (l : List Effect) :
    sentOn i (Effect.micAcquire j :: l) = sentOn i l := rfl

@[simp] theorem sentOn_micRelease_cons (i j : ℕ) (l : List Effect) :
    sentOn i (Effect.micRelease j :: l) = sentOn i l := rfl

@[simp] theorem sentOn_ctxCreate_cons (i j r : ℕ) (l : List Effect) :
    sentOn i (Effect.ctxCreate j r :: l) = sentOn i l := rfl

@[simp] theorem sentOn_ctxClose_cons (i j : ℕ) (l : List Effect) :
    sentOn i (Effect.ctxClose j :: l) = sentOn i l := rfl

@[simp] theorem sentOn_enqueue_cons (i : ℕ) (c : String) (l : List Effect) :
    sentOn i (Effect.enqueue c :: l) = sentOn i l := rfl

@[simp] theorem sentOn_playStart_cons (i : ℕ) (c : String) (l : List Effect) :
    sentOn i (Effect.playStart c :: l) = sentOn i l := rfl

@[simp] theorem sentOn_playDropped_cons (i : ℕ) (c : String) (l : List Effect) :
    sentOn i (Effect.playDropped c :: l) = sentOn i l := rfl

@[simp] theorem sentOn_playDone_cons (i : ℕ) (c : String) (ok : Bool) (l : List Effect) :
    sentOn i (Effect.playDone c ok :: l) = sentOn i l := rfl

@[simp] theorem sentOn_logError_cons (i : ℕ) (m : String) (l : List Effect) :
    sentOn i (Effect.logError m :: l) = sentOn i l := rfl

@[simp] theorem sentOn_setVolume_cons (i : ℕ) (v : ℚ) (l : List Effect) :
    sentOn i (Effect.setVolume v :: l) = sentOn i l := rfl

theorem sentOn_wsSend_cons (i j : ℕ) (m : Msg) (l : List Effect) :
    sentOn i (Effect.wsSend j m :: l) =
      if j = i then m :: sentOn i l else sentOn i l := by
  by_cases h : j = i <;> simp [sentOn, List.filterMap_cons, h]

theorem sentOn_append (i : ℕ) (t1 t2 : List Effect) :
    sentOn i (t1 ++ t2) = sentOn i t1 ++ sentOn i t2 :=
  List.filterMap_append t1 t2 _

/-- Well-formed per-socket send sequence: nothing yet, or exactly one
config handshake (carrying the Intl timezone) followed only by audio
chunks. -/
def GoodSends (tz : String) (ms : List Msg) : Prop :=
  ms = [] ∨ ∃ tl, ms = Msg.config tz :: tl ∧ ∀ m ∈ tl, ∃ p, m = Msg.audio_chunk p

/-- The connection/handshake invariant tying a session state to its
trace: unused (fresh) socket ids have no sends; every socket's send
sequence is well formed; and the current socket has a known id, no sends
before its open fires, and a config-headed send sequence once OPEN. -/
def SendInv (tz : String) (s : SessionState) (tr : List Effect) : Prop :=
  (∀ i, s.nextId ≤ i → sentOn i tr = []) ∧
  (∀ i, GoodSends tz (sentOn i tr)) ∧
  (∀ w, s.websocket = some w →
    w.id < s.nextId ∧
    (w.readyState = WSt.CONNECTING → sentOn w.id tr = []) ∧
    (w.readyState = WSt.OPEN → ∃ tl, sentOn w.id tr = Msg.config tz :: tl))

/-- The playback scheduler sends nothing, keeps the socket ref, and only
grows the fresh-id counter. -/
theorem processAudioQueue_sends (s : SessionState) :
    (∀ i, sentOn i (processAudioQueue s).2 = []) ∧
    (processAudioQueue s).1.websocket = s.websocket ∧
    s.nextId ≤ (processAudioQueue s).1.nextId := by
  obtain ⟨il, ip, ts, vl, er, ws, mr, ac, lr, q, pl, n⟩ := s
  cases pl with
  | some c => simp [processAudioQueue]
  | none =>
    cases q with
    | nil => simp [processAudioQueue]
    | cons c rest =>
      by_cases hc : c = "" <;> cases ac <;>
        simp [processAudioQueue, playAudio, hc]

/-- Every step of the hook preserves the connection/handshake invariant. -/
theorem step_sendInv (env : Env) (s : SessionState) (tr : List Effect) (e : Evt)
    (h : SendInv env.tz s tr) : SendInv env.tz (step env s e).1 (tr ++ (step env s e).2) := by
  obtain ⟨il, ip, ts, vl, er, ws, mr, ac, lr, q, pl, n⟩ := s
  obtain ⟨h1, h2, h3⟩ := h
  dsimp only at h1 h3
  have ext : ∀ (s' : SessionState) (fx : List Effect),
      (∀ i, sentOn i fx = []) → s'.websocket = ws → n ≤ s'.nextId →
      SendInv env.tz s' (tr ++ fx) := by
    intro s' fx hfx hws hn
    refine ⟨?_, ?_, ?_⟩ <;> dsimp only
    · intro i hi
      rw [sentOn_append, hfx, List.append_nil]
      exact h1 i (le_trans hn hi)
    · intro i
      rw [sentOn_append, hfx, List.append_nil]
      exact h2 i
    · intro w hw
      rw [hws] at hw
      obtain ⟨g1, g2, g3⟩ := h3 w hw
      refine ⟨lt_of_lt_of_le g1 hn, ?_, ?_⟩
      · intro hc
        rw [sentOn_append, hfx, List.append_nil]
        exact g2 hc
      · intro ho
        rw [sentOn_append, hfx, List.append_nil]
        exact g3 ho
  cases e with
  | wsOpen =>
    cases ws with
    | none => exact ext _ [] (fun i => rfl) rfl le_rfl
    | some w =>
      by_cases hrs : w.readyState = WSt.CONNECTING
      · simp only [step, if_pos hrs]
        obtain ⟨g1, g2, _⟩ := h3 w rfl
        have hempty : sentOn w.id tr = [] := g2 hrs
        refine ⟨?_, ?_, ?_⟩ <;> dsimp only
        · intro i hi
          rw [sentOn_append, sentOn_wsOpened_cons, sentOn_wsSend_cons,
            if_neg (by omega), sentOn_nil, List.append_nil]
          exact h1 i hi
        · intro i
          by_cases hiw : w.id = i
          · subst hiw
            rw [sentOn_append, hempty, List.nil_append, sentOn_wsOpened_cons,
              sentOn_wsSend_cons, if_pos rfl, sentOn_nil]
            exact Or.inr ⟨[], rfl, by simp⟩
          · rw [sentOn_append, sentOn_wsOpened_cons, sentOn_wsSend_cons,
              if_neg hiw, sentOn_nil, List.append_nil]
            exact h2 i
        · intro w' hw'
          injection hw' with hw2
          subst hw2
          refine ⟨g1, ?_, ?_⟩
          · intro hc
            exact absurd hc (by simp)
          · intro _
            rw [sentOn_append, hempty, List.nil_append, sentOn_wsOpened_cons,
              sentOn_wsSend_cons, if_pos rfl, sentOn_nil]
            exact ⟨[], rfl⟩
      · simp only [step, if_neg hrs]
        exact ext _ [] (fun i => rfl) rfl le_rfl
  | wsMessage m =>
    cases m with
    | transcriptMsg t fin => exact ext _ [] (fun i => rfl) rfl le_rfl
    | agent_response => exact ext _ [] (fun i => rfl) rfl le_rfl
    | unknown => exact ext _ [] (fun i => rfl) rfl le_rfl
    | audio_response p =>
      simp only [step]
      obtain ⟨q1, q2, q3⟩ := processAudioQueue_sends
        ⟨il, ip, ts, vl, er, ws, mr, ac, lr, q ++ [p], pl, n⟩
      exact ext _ _ (fun i => by simpa using q1 i) q2 q3
  | wsMalformed => exact ext _ _ (fun i => rfl) rfl le_rfl
  | wsError =>
    cases ws with
    | none => exact ext _ _ (fun i => rfl) rfl le_rfl
    | some w =>
      simp only [step]
      refine ⟨?_, ?_, ?_⟩ <;> dsimp only
      · intro i hi
        rw [sentOn_append, sentOn_logError_cons, sentOn_nil, List.append_nil]
        exact h1 i hi
      · intro i
        rw [sentOn_append, sentOn_logError_cons, sentOn_nil, List.append_nil]
        exact h2 i
      · intro w' hw'
        injection hw' with hw2
        subst hw2
        obtain ⟨g1, _, _⟩ := h3 w rfl
        refine ⟨g1, ?_, ?_⟩
        · intro hc
          exact absurd hc (by simp)
        · intro ho
          exact absurd ho (by simp)
  | wsClose =>
    cases ws with
    | none => exact ext _ [] (fun i => rfl) rfl le_rfl
    | some w =>
      simp only [step]
      refine ⟨?_, ?_, ?_⟩ <;> dsimp only
      · intro i hi
        rw [sentOn_append, sentOn_nil, List.append_nil]
        exact h1 i hi
      · intro i
        rw [sentOn_append, sentOn_nil, List.append_nil]
        exact h2 i
      · intro w' hw'
        injection hw' with hw2
        subst hw2
        obtain ⟨g1, _, _⟩ := h3 w rfl
        refine ⟨g1, ?_, ?_⟩
        · intro hc
          exact absurd hc (by simp)
        · intro ho
          exact absurd ho (by simp)
  | audioBlock b =>
    cases lr with
    | false => exact ext _ [] (fun i => rfl) rfl le_rfl
    | true =>
      cases ws with
      | none => exact ext _ _ (fun i => rfl) rfl le_rfl
      | some w =>
        by_cases hrs : w.readyState = WSt.OPEN
        · simp only [step, reduceIte, if_pos hrs]
          obtain ⟨g1, g2, g3⟩ := h3 w rfl
          obtain ⟨tl, htl⟩ := g3 hrs
          have htail : ∀ m ∈ tl, ∃ p, m = Msg.audio_chunk p := by
            have hg := h2 w.id
            rw [htl] at hg
            rcases hg with hg | ⟨tl2, heq, hall⟩
            · exact absurd hg (by simp)
            · have heq2 : tl = tl2 := by injection heq
              intro m hm
              exact hall m (heq2 ▸ hm)
          refine ⟨?_, ?_, ?_⟩ <;> dsimp only
          · intro i hi
            rw [sentOn_append, sentOn_setVolume_cons, sentOn_wsSend_cons,
              if_neg (by omega), sentOn_nil, List.append_nil]
            exact h1 i hi
          · intro i
            by_cases hiw : w.id = i
            · subst hiw
              rw [sentOn_append, sentOn_setVolume_cons, sentOn_wsSend_cons,
                if_pos rfl, sentOn_nil, htl]
              refine Or.inr ⟨tl ++ [Msg.audio_chunk (chunkPayload b)], by simp, ?_⟩
              intro m hm
              rcases List.mem_append.mp hm with hm | hm
              · exact htail m hm
              · simp only [List.mem_singleton] at hm
                exact ⟨_, hm⟩
            · rw [sentOn_append, sentOn_setVolume_cons, sentOn_wsSend_cons,
                if_neg hiw, sentOn_nil, List.append_nil]
              exact h2 i
          · intro w' hw'
            injection hw' with hw2
            subst hw2
            refine ⟨g1, ?_, ?_⟩
            · intro hc
              rw [hrs] at hc
              exact absurd hc (by simp)
            · intro _
              rw [sentOn_append, sentOn_setVolume_cons, sentOn_wsSend_cons,
                if_pos rfl, sentOn_nil, htl]
              exact ⟨tl ++ [Msg.audio_chunk (chunkPayload b)], by simp⟩
        · simp only [step, reduceIte, if_neg hrs]
          exact ext _ _ (fun i => rfl) rfl le_rfl
  | playEnded =>
    simp only [step]
    cases pl with
    | none => exact ext _ [] (fun i => rfl) rfl le_rfl
    | some c =>
      obtain ⟨q1, q2, q3⟩ := processAudioQueue_sends
        ⟨il, ip, ts, vl, er, ws, mr, ac, lr, q, none, n⟩
      exact ext _ _ (fun i => by simpa using q1 i) q2 q3
  | playFailed =>
    simp only [step]
    cases pl with
    | none => exact ext _ [] (fun i => rfl) rfl le_rfl
    | some c =>
      obtain ⟨q1, q2, q3⟩ := processAudioQueue_sends
        ⟨il, ip, ts, vl, er, ws, mr, ac, lr, q, none, n⟩
      exact ext _ _ (fun i => by simpa using q1 i) q2 q3
  | startRecording granted =>
    cases granted with
    | true =>
      simp only [step, startRecording, connectWebSocket, reduceIte]
      cases ws with
      | none =>
        refine ⟨?_, ?_, ?_⟩ <;> dsimp only
        · intro i hi
          rw [sentOn_append]
          simp only [List.cons_append, List.nil_append, sentOn_wsCreate_cons,
            sentOn_micAcquire_cons, sentOn_ctxCreate_cons, sentOn_nil]
          rw [List.append_nil]
          exact h1 i (by omega)
        · intro i
          rw [sentOn_append]
          simp only [List.cons_append, List.nil_append, sentOn_wsCreate_cons,
            sentOn_micAcquire_cons, sentOn_ctxCreate_cons, sentOn_nil]
          rw [List.append_nil]
          exact h2 i
        · intro w' hw'
          injection hw' with hw2
          subst hw2
          refine ⟨by dsimp only; omega, ?_, ?_⟩
          · intro _
            rw [sentOn_append]
            simp only [List.cons_append, List.nil_append, sentOn_wsCreate_cons,
              sentOn_micAcquire_cons, sentOn_ctxCreate_cons, sentOn_nil]
            rw [List.append_nil]
            exact h1 n le_rfl
          · intro ho
            exact absurd ho (by simp)
      | some w =>
        by_cases hrs : w.readyState = WSt.OPEN
        · simp only [if_pos hrs]
          exact ext _ _ (fun i => rfl) rfl (by dsimp only; omega)
        · simp only [if_neg hrs]
          refine ⟨?_, ?_, ?_⟩ <;> dsimp only
          · intro i hi
            rw [sentOn_append]
            simp only [List.cons_append, List.nil_append, sentOn_wsCreate_cons,
              sentOn_micAcquire_cons, sentOn_ctxCreate_cons, sentOn_nil]
            rw [List.append_nil]
            exact h1 i (by omega)
          · intro i
            rw [sentOn_append]
            simp only [List.cons_append, List.nil_append, sentOn_wsCreate_cons,
              sentOn_micAcquire_cons, sentOn_ctxCreate_cons, sentOn_nil]
            rw [List.append_nil]
            exact h2 i
          · intro w' hw'
            injection hw' with hw2
            subst hw2
            refine ⟨by dsimp only; omega, ?_, ?_⟩
            · intro _
              rw [sentOn_append]
              simp only [List.cons_append, List.nil_append, sentOn_wsCreate_cons,
                sentOn_micAcquire_cons, sentOn_ctxCreate_cons, sentOn_nil]
              rw [List.append_nil]
              exact h1 n le_rfl
            · intro ho
              exact absurd ho (by simp)
    | false =>
      simp only [step, startRecording, connectWebSocket, reduceIte]
      cases ws with
      | none =>
        refine ⟨?_, ?_, ?_⟩ <;> dsimp only
        · intro i hi
          rw [sentOn_append]
          simp only [List.cons_append, List.nil_append, sentOn_wsCreate_cons,
            sentOn_logError_cons, sentOn_nil]
          rw [List.append_nil]
          exact h1 i (by omega)
        · intro i
          rw [sentOn_append]
          simp only [List.cons_append, List.nil_append, sentOn_wsCreate_cons,
            sentOn_logError_cons, sentOn_nil]
          rw [List.append_nil]
          exact h2 i
        · intro w' hw'
          injection hw' with hw2
          subst hw2
          refine ⟨by dsimp only; omega, ?_, ?_⟩
          · intro _
            rw [sentOn_append]
            simp only [List.cons_append, List.nil_append, sentOn_wsCreate_cons,
              sentOn_logError_cons, sentOn_nil]
            rw [List.append_nil]
            exact h1 n le_rfl
          · intro ho
            exact absurd ho (by simp)
      | some w =>
        by_cases hrs : w.readyState = WSt.OPEN
        · simp only [if_pos hrs]
          exact ext _ _ (fun i => rfl) rfl le_rfl
        · simp only [if_neg hrs]
          refine ⟨?_, ?_, ?_⟩ <;> dsimp only
          · intro i hi
            rw [sentOn_append]
            simp only [List.cons_append, List.nil_append, sentOn_wsCreate_cons,
              sentOn_logError_cons, sentOn_nil]
            rw [List.append_nil]
            exact h1 i (by omega)
          · intro i
            rw [sentOn_append]
            simp only [List.cons_append, List.nil_append, sentOn_wsCreate_cons,
              sentOn_logError_cons, sentOn_nil]
            rw [List.append_nil]
            exact h2 i
          · intro w' hw'
            injection hw' with hw2
            subst hw2
            refine ⟨by dsimp only; omega, ?_, ?_⟩
            · intro _
              rw [sentOn_append]
              simp only [List.cons_append, List.nil_append, sentOn_wsCreate_cons,
                sentOn_logError_cons, sentOn_nil]
              rw [List.append_nil]
              exact h1 n le_rfl
            · intro ho
              exact absurd ho (by simp)
  | stopRecording =>
    cases mr with
    | none => exact ext _ _ (fun i => rfl) rfl le_rfl
    | some i => exact ext _ _ (fun i => rfl) rfl le_rfl
  | unmount =>
    cases ws with
    | none =>
      cases ac with
      | none => exact ext _ _ (fun i => rfl) rfl le_rfl
      | some c => exact ext _ _ (fun i => rfl) rfl le_rfl
    | some w =>
      cases ac with
      | none =>
        simp only [step]
        refine ⟨?_, ?_, ?_⟩ <;> dsimp only
        · intro i hi
          simp only [sentOn_append, List.cons_append, List.nil_append, List.append_nil,
            sentOn_wsClosed_cons, sentOn_nil]
          exact h1 i hi
        · intro i
          simp only [sentOn_append, List.cons_append, List.nil_append, List.append_nil,
            sentOn_wsClosed_cons, sentOn_nil]
          exact h2 i
        · intro w' hw'
          injection hw' with hw2
          subst hw2
          obtain ⟨g1, _, _⟩ := h3 w rfl
          refine ⟨g1, ?_, ?_⟩
          · intro hc
            exact absurd hc (by simp)
          · intro ho
            exact absurd ho (by simp)
      | some c =>
        simp only [step]
        refine ⟨?_, ?_, ?_⟩ <;> dsimp only
        · intro i hi
          simp only [sentOn_append, List.cons_append, List.nil_append, List.append_nil,
            sentOn_wsClosed_cons, sentOn_ctxClose_cons, sentOn_nil]
          exact h1 i hi
        · intro i
          simp only [sentOn_append, List.cons_append, List.nil_append, List.append_nil,
            sentOn_wsClosed_cons, sentOn_ctxClose_cons, sentOn_nil]
          exact h2 i
        · intro w' hw'
          injection hw' with hw2
          subst hw2
          obtain ⟨g1, _, _⟩ := h3 w rfl
          refine ⟨g1, ?_, ?_⟩
          · intro hc
            exact absurd hc (by simp)
          · intro ho
            exact absurd ho (by simp)

/-- Runs preserve the connection/handshake invariant. -/
theorem steps_sendInv (env : Env) : ∀ (evs : List Evt) (s : SessionState) (tr : List Effect),
    SendInv env.tz s tr → SendInv env.tz (steps env s evs).1 (tr ++ (steps env s evs).2)
  | [], _, _, h => by simpa [steps] using h
  | e :: rest, s, tr, h => by
    have g1 := step_sendInv env s tr e h
    have g2 := steps_sendInv env rest (step env s e).1 (tr ++ (step env s e).2) g1
    simpa [steps, List.append_assoc] using g2

/-- The connection/handshake invariant holds over every full run. -/
theorem runSession_sendInv (env : Env) (evs : List Evt) :
    SendInv env.tz (runSession env evs).1 (runSession env evs).2 := by
  have h0 : SendInv env.tz sessionInit.1 sessionInit.2 := by
    refine ⟨fun i _ => rfl, fun i => Or.inl rfl, fun w hw => ?_⟩
    injection hw with hw2
    subst hw2
    exact ⟨by decide, fun _ => rfl, fun ho => absurd ho (by decide)⟩
  simpa [runSession] using steps_sendInv env evs sessionInit.1 sessionInit.2 h0

/-- The socket ids whose `onopen` fired (one `wsOpened` effect each), in
order. -/
def openedIds (tr : List Effect) : List ℕ :=
  tr.filterMap fun e => match e with
    | Effect.wsOpened j => some j
    | _ => none

@[simp] theorem openedIds_nil : openedIds [] = [] := rfl

@[simp] theorem openedIds_wsOpened_cons (j : ℕ) (l : List Effect) :
    openedIds (Effect.wsOpened j :: l) = j :: openedIds l := rfl

@[simp] theorem openedIds_wsCreate_cons (j : ℕ) (l : List Effect) :
    openedIds (Effect.wsCreate j :: l) = openedIds l := rfl

@[simp] theorem openedIds_wsSend_cons (j : ℕ) (m : Msg) (l : List Effect) :
    openedIds (Effect.wsSend j m :: l) = openedIds l := rfl

@[simp] theorem openedIds_wsClosed_cons (j : ℕ) (l : List Effect) :
    openedIds (Effect.wsClosed j :: l) = openedIds l := rfl

@[simp] theorem openedIds_micAcquire_cons (j : ℕ) (l : List Effect) :
    openedIds (Effect.micAcquire j :: l) = openedIds l := rfl

@[simp] theorem openedIds_micRelease_cons (j : ℕ) (l : List Effect) :
    openedIds (Effect.micRelease j :: l) = openedIds l := rfl

@[simp] theorem openedIds_ctxCreate_cons (j r : ℕ) (l : List Effect) :
    openedIds (Effect.ctxCreate j r :: l) = openedIds l := rfl

@[simp] theorem openedIds_ctxClose_cons (j : ℕ) (l : List Effect) :
    openedIds (Effect.ctxClose j :: l) = openedIds l := rfl

@[simp] theorem openedIds_enqueue_cons (c : String) (l : List Effect) :
    openedIds (Effect.enqueue c :: l) = openedIds l := rfl

@[simp] theorem openedIds_playStart_cons (c : String) (l : List Effect) :
    openedIds (Effect.playStart c :: l) = openedIds l := rfl

@[simp] theorem openedIds_playDropped_cons (c : String) (l : List Effect) :
    openedIds (Effect.playDropped c :: l) = openedIds l := rfl

@[simp] theorem openedIds_playDone_cons (c : String) (ok : Bool) (l : List Effect) :
    openedIds (Effect.playDone c ok :: l) = openedIds l := rfl

@[simp] theorem openedIds_logError_cons (m : String) (l : List Effect) :
    openedIds (Effect.logError m :: l) = openedIds l := rfl

@[simp] theorem openedIds_setVolume_cons (v : ℚ) (l : List Effect) :
    openedIds (Effect.setVolume v :: l) = openedIds l := rfl

theorem openedIds_append (t1 t2 : List Effect) :
    openedIds (t1 ++ t2) = openedIds t1 ++ openedIds t2 :=
  List.filterMap_append t1 t2 _

/-- The playback scheduler never opens a socket. -/
theorem processAudioQueue_opened (s : SessionState) :
    openedIds (processAudioQueue s).2 = [] := by
  obtain ⟨il, ip, ts, vl, er, ws, mr, ac, lr, q, pl, n⟩ := s
  cases pl with
  | some c => simp [processAudioQueue]
  | none =>
    cases q with
    | nil => simp [processAudioQueue]
    | cons c rest =>
      by_cases hc : c = "" <;> cases ac <;>
        simp [processAudioQueue, playAudio, hc]

/-- The open/handshake correspondence invariant: fresh ids never opened;
a socket id carries sends iff its open event fired; the current socket is
recorded in the opened list exactly when its readyState is OPEN. -/
def OpenInv (s : SessionState) (tr : List Effect) : Prop :=
  (∀ i, s.nextId ≤ i → i ∉ openedIds tr) ∧
  (∀ i, i ∉ openedIds tr → sentOn i tr = []) ∧
  (∀ i, i ∈ openedIds tr → sentOn i tr ≠ []) ∧
  (∀ w, s.websocket = some w →
    w.id < s.nextId ∧
    (w.readyState = WSt.CONNECTING → w.id ∉ openedIds tr) ∧
    (w.readyState = WSt.OPEN → w.id ∈ openedIds tr))

/-- Every step of the hook preserves the open/handshake correspondence. -/
theorem step_openInv (env : Env) (s : SessionState) (tr : List Effect) (e : Evt)
    (h : OpenInv s tr) : OpenInv (step env s e).1 (tr ++ (step env s e).2) := by
  obtain ⟨il, ip, ts, vl, er, ws, mr, ac, lr, q, pl, n⟩ := s
  obtain ⟨h1, h2, h3, h4⟩ := h
  dsimp only at h1 h4
  have ext : ∀ (s' : SessionState) (fx : List Effect),
      openedIds fx = [] → (∀ i, sentOn i fx = []) → s'.websocket = ws → n ≤ s'.nextId →
      OpenInv s' (tr ++ fx) := by
    intro s' fx hop hfx hws hn
    refine ⟨?_, ?_, ?_, ?_⟩ <;> dsimp only
    · intro i hi
      rw [openedIds_append, hop, List.append_nil]
      exact h1 i (le_trans hn hi)
    · intro i hni
      rw [openedIds_append, hop, List.append_nil] at hni
      rw [sentOn_append, hfx, List.append_nil]
      exact h2 i hni
    · intro i hmi
      rw [openedIds_append, hop, List.append_nil] at hmi
      rw [sentOn_append, hfx, List.append_nil]
      exact h3 i hmi
    · intro w hw
      rw [hws] at hw
      obtain ⟨g1, g2, g3⟩ := h4 w hw
      refine ⟨lt_of_lt_of_le g1 hn, ?_, ?_⟩
      · intro hc
        rw [openedIds_append, hop, List.append_nil]
        exact g2 hc
      · intro ho
        rw [openedIds_append, hop, List.append_nil]
        exact g3 ho
  cases e with
  | wsOpen =>
    cases ws with
    | none => exact ext _ [] rfl (fun i => rfl) rfl le_rfl
    | some w =>
      by_cases hrs : w.readyState = WSt.CONNECTING
      · simp only [step, if_pos hrs]
        obtain ⟨g1, g2, _⟩ := h4 w rfl
        refine ⟨?_, ?_, ?_, ?_⟩ <;> dsimp only
        · intro i hi hmem
          rw [openedIds_append, openedIds_wsOpened_cons, openedIds_wsSend_cons,
            openedIds_nil] at hmem
          rcases List.mem_append.mp hmem with hm | hm
          · exact h1 i hi hm
          · rw [List.mem_singleton] at hm
            omega
        · intro i hni
          rw [openedIds_append, openedIds_wsOpened_cons, openedIds_wsSend_cons,
            openedIds_nil] at hni
          have hit : i ∉ openedIds tr := fun hm => hni (List.mem_append.mpr (Or.inl hm))
          have hiw : w.id ≠ i := fun he => hni (List.mem_append.mpr (Or.inr (by simp [he])))
          rw [sentOn_append, sentOn_wsOpened_cons, sentOn_wsSend_cons, if_neg hiw,
            sentOn_nil, List.append_nil]
          exact h2 i hit
        · intro i hmi
          rw [openedIds_append, openedIds_wsOpened_cons, openedIds_wsSend_cons,
            openedIds_nil] at hmi
          rcases List.mem_append.mp hmi with hm | hm
          · intro hc
            rw [sentOn_append] at hc
            exact h3 i hm (List.append_eq_nil.mp hc).1
          · rw [List.mem_singleton] at hm
            subst hm
            intro hc
            rw [sentOn_append, sentOn_wsOpened_cons, sentOn_wsSend_cons, if_pos rfl,
              sentOn_nil] at hc
            exact absurd (List.append_eq_nil.mp hc).2 (by simp)
        · intro w' hw'
          injection hw' with hw2
          subst hw2
          refine ⟨g1, ?_, ?_⟩
          · intro hc
            exact absurd hc (by simp)
          · intro _
            rw [openedIds_append, openedIds_wsOpened_cons, openedIds_wsSend_cons,
              openedIds_nil]
            exact List.mem_append.mpr (Or.inr (List.mem_singleton.mpr rfl))
      · simp only [step, if_neg hrs]
        exact ext _ [] rfl (fun i => rfl) rfl le_rfl
  | wsMessage m =>
    cases m with
    | transcriptMsg t fin => exact ext _ [] rfl (fun i => rfl) rfl le_rfl
    | agent_response => exact ext _ [] rfl (fun i => rfl) rfl le_rfl
    | unknown => exact ext _ [] rfl (fun i => rfl) rfl le_rfl
    | audio_response p =>
      simp only [step]
      obtain ⟨q1, q2, q3⟩ := processAudioQueue_sends
        ⟨il, ip, ts, vl, er, ws, mr, ac, lr, q ++ [p], pl, n⟩
      have q4 := processAudioQueue_opened
        ⟨il, ip, ts, vl, er, ws, mr, ac, lr, q ++ [p], pl, n⟩
      exact ext _ _ (by simpa using q4) (fun i => by simpa using q1 i) q2 q3
  | wsMalformed => exact ext _ _ rfl (fun i => rfl) rfl le_rfl
  | wsError =>
    cases ws with
    | none => exact ext _ _ rfl (fun i => rfl) rfl le_rfl
    | some w =>
      simp only [step]
      obtain ⟨g1, _, _⟩ := h4 w rfl
      refine ⟨?_, ?_, ?_, ?_⟩ <;> dsimp only
      · intro i hi
        rw [openedIds_append, openedIds_logError_cons, openedIds_nil, List.append_nil]
        exact h1 i hi
      · intro i hni
        rw [openedIds_append, openedIds_logError_cons, openedIds_nil,
          List.append_nil] at hni
        rw [sentOn_append, sentOn_logError_cons, sentOn_nil, List.append_nil]
        exact h2 i hni
      · intro i hmi
        rw [openedIds_append, openedIds_logError_cons, openedIds_nil,
          List.append_nil] at hmi
        rw [sentOn_append, sentOn_logError_cons, sentOn_nil, List.append_nil]
        exact h3 i hmi
      · intro w' hw'
        injection hw' with hw2
        subst hw2
        refine ⟨g1, ?_, ?_⟩
        · intro hc
          exact absurd hc (by simp)
        · intro ho
          exact absurd ho (by simp)
  | wsClose =>
    cases ws with
    | none => exact ext _ [] rfl (fun i => rfl) rfl le_rfl
    | some w =>
      simp only [step]
      obtain ⟨g1, _, _⟩ := h4 w rfl
      refine ⟨?_, ?_, ?_, ?_⟩ <;> dsimp only
      · intro i hi
        rw [List.append_nil]
        exact h1 i hi
      · intro i hni
        rw [List.append_nil] at hni
        rw [List.append_nil]
        exact h2 i hni
      · intro i hmi
        rw [List.append_nil] at hmi
        rw [List.append_nil]
        exact h3 i hmi
      · intro w' hw'
        injection hw' with hw2
        subst hw2
        refine ⟨g1, ?_, ?_⟩
        · intro hc
          exact absurd hc (by simp)
        · intro ho
          exact absurd ho (by simp)
  | audioBlock b =>
    cases lr with
    | false => exact ext _ [] rfl (fun i => rfl) rfl le_rfl
    | true =>
      cases ws with
      | none => exact ext _ _ rfl (fun i => rfl) rfl le_rfl
      | some w =>
        by_cases hrs : w.readyState = WSt.OPEN
        · simp only [step, reduceIte, if_pos hrs]
          obtain ⟨g1, _, g3⟩ := h4 w rfl
          have hwmem : w.id ∈ openedIds tr := g3 hrs
          refine ⟨?_, ?_, ?_, ?_⟩ <;> dsimp only
          · intro i hi
            rw [openedIds_append, openedIds_setVolume_cons, openedIds_wsSend_cons,
              openedIds_nil, List.append_nil]
            exact h1 i hi
          · intro i hni
            rw [openedIds_append, openedIds_setVolume_cons, openedIds_wsSend_cons,
              openedIds_nil, List.append_nil] at hni
            have hiw : w.id ≠ i := fun he => hni (he ▸ hwmem)
            rw [sentOn_append, sentOn_setVolume_cons, sentOn_wsSend_cons,
              if_neg hiw, sentOn_nil, List.append_nil]
            exact h2 i hni
          · intro i hmi
            rw [openedIds_append, openedIds_setVolume_cons, openedIds_wsSend_cons,
              openedIds_nil, List.append_nil] at hmi
            intro hc
            rw [sentOn_append] at hc
            exact h3 i hmi (List.append_eq_nil.mp hc).1
          · intro w' hw'
            injection hw' with hw2
            subst hw2
            refine ⟨g1, ?_, ?_⟩
            · intro hc
              rw [hrs] at hc
              exact absurd hc (by simp)
            · intro _
              rw [openedIds_append, openedIds_setVolume_cons, openedIds_wsSend_cons,
                openedIds_nil, List.append_nil]
              exact hwmem
        · simp only [step, reduceIte, if_neg hrs]
          exact ext _ _ rfl (fun i => rfl) rfl le_rfl
  | playEnded =>
    simp only [step]
    cases pl with
    | none => exact ext _ [] rfl (fun i => rfl) rfl le_rfl
    | some c =>
      obtain ⟨q1, q2, q3⟩ := processAudioQueue_sends
        ⟨il, ip, ts, vl, er, ws, mr, ac, lr, q, none, n⟩
      have q4 := processAudioQueue_opened
        ⟨il, ip, ts, vl, er, ws, mr, ac, lr, q, none, n⟩
      exact ext _ _ (by simpa using q4) (fun i => by simpa using q1 i) q2 q3
  | playFailed =>
    simp only [step]
    cases pl with
    | none => exact ext _ [] rfl (fun i => rfl) rfl le_rfl
    | some c =>
      obtain ⟨q1, q2, q3⟩ := processAudioQueue_sends
        ⟨il, ip, ts, vl, er, ws, mr, ac, lr, q, none, n⟩
      have q4 := processAudioQueue_opened
        ⟨il, ip, ts, vl, er, ws, mr, ac, lr, q, none, n⟩
      exact ext _ _ (by simpa using q4) (fun i => by simpa using q1 i) q2 q3
  | startRecording granted =>
    cases granted with
    | true =>
      simp only [step, startRecording, connectWebSocket, reduceIte]
      cases ws with
      | none =>
        refine ⟨?_, ?_, ?_, ?_⟩ <;> dsimp only
        · intro i hi
          rw [openedIds_append]
          simp only [List.cons_append, List.nil_append, openedIds_wsCreate_cons,
            openedIds_micAcquire_cons, openedIds_ctxCreate_cons, openedIds_nil]
          rw [List.append_nil]
          exact h1 i (by omega)
        · intro i hni
          rw [openedIds_append] at hni
          simp only [List.cons_append, List.nil_append, openedIds_wsCreate_cons,
            openedIds_micAcquire_cons, openedIds_ctxCreate_cons, openedIds_nil] at hni
          rw [List.append_nil] at hni
          rw [sentOn_append]
          simp only [List.cons_append, List.nil_append, sentOn_wsCreate_cons,
            sentOn_micAcquire_cons, sentOn_ctxCreate_cons, sentOn_nil]
          rw [List.append_nil]
          exact h2 i hni
        · intro i hmi
          rw [openedIds_append] at hmi
          simp only [List.cons_append, List.nil_append, openedIds_wsCreate_cons,
            openedIds_micAcquire_cons, openedIds_ctxCreate_cons, openedIds_nil] at hmi
          rw [List.append_nil] at hmi
          rw [sentOn_append]
          simp only [List.cons_append, List.nil_append, sentOn_wsCreate_cons,
            sentOn_micAcquire_cons, sentOn_ctxCreate_cons, sentOn_nil]
          rw [List.append_nil]
          exact h3 i hmi
        · intro w' hw'
          injection hw' with hw2
          subst hw2
          refine ⟨by dsimp only; omega, ?_, ?_⟩
          · intro _
            rw [openedIds_append]
            simp only [List.cons_append, List.nil_append, openedIds_wsCreate_cons,
              openedIds_micAcquire_cons, openedIds_ctxCreate_cons, openedIds_nil]
            rw [List.append_nil]
            exact h1 n le_rfl
          · intro ho
            exact absurd ho (by simp)
      | some w =>
        by_cases hrs : w.readyState = WSt.OPEN
        · simp only [if_pos hrs]
          exact ext _ _ rfl (fun i => rfl) rfl (by dsimp only; omega)
        · simp only [if_neg hrs]
          refine ⟨?_, ?_, ?_, ?_⟩ <;> dsimp only
          · intro i hi
            rw [openedIds_append]
            simp only [List.cons_append, List.nil_append, openedIds_wsCreate_cons,
              openedIds_micAcquire_cons, openedIds_ctxCreate_cons, openedIds_nil]
            rw [List.append_nil]
            exact h1 i (by omega)
          · intro i hni
            rw [openedIds_append] at hni
            simp only [List.cons_append, List.nil_append, openedIds_wsCreate_cons,
              openedIds_micAcquire_cons, openedIds_ctxCreate_cons, openedIds_nil] at hni
            rw [List.append_nil] at hni
            rw [sentOn_append]
            simp only [List.cons_append, List.nil_append, sentOn_wsCreate_cons,
              sentOn_micAcquire_cons, sentOn_ctxCreate_cons, sentOn_nil]
            rw [List.append_nil]
            exact h2 i hni
          · intro i hmi
            rw [openedIds_append] at hmi
            simp only [List.cons_append, List.nil_append, openedIds_wsCreate_cons,
              openedIds_micAcquire_cons, openedIds_ctxCreate_cons, openedIds_nil] at hmi
            rw [List.append_nil] at hmi
            rw [sentOn_append]
            simp only [List.cons_append, List.nil_append, sentOn_wsCreate_cons,
              sentOn_micAcquire_cons, sentOn_ctxCreate_cons, sentOn_nil]
            rw [List.append_nil]
            exact h3 i hmi
          · intro w' hw'
            injection hw' with hw2
            subst hw2
            refine ⟨by dsimp only; omega, ?_, ?_⟩
            · intro _
              rw [openedIds_append]
              simp only [List.cons_append, List.nil_append, openedIds_wsCreate_cons,
                openedIds_micAcquire_cons, openedIds_ctxCreate_cons, openedIds_nil]
              rw [List.append_nil]
              exact h1 n le_rfl
            · intro ho
              exact absurd ho (by simp)
    | false =>
      simp only [step, startRecording, connectWebSocket, reduceIte]
      cases ws with
      | none =>
        refine ⟨?_, ?_, ?_, ?_⟩ <;> dsimp only
        · intro i hi
          rw [openedIds_append]
          simp only [List.cons_append, List.nil_append, openedIds_wsCreate_cons,
            openedIds_logError_cons, openedIds_nil]
          rw [List.append_nil]
          exact h1 i (by omega)
        · intro i hni
          rw [openedIds_append] at hni
          simp only [List.cons_append, List.nil_append, openedIds_wsCreate_cons,
            openedIds_logError_cons, openedIds_nil] at hni
          rw [List.append_nil] at hni
          rw [sentOn_append]
          simp only [List.cons_append, List.nil_append, sentOn_wsCreate_cons,
            sentOn_logError_cons, sentOn_nil]
          rw [List.append_nil]
          exact h2 i hni
        · intro i hmi
          rw [openedIds_append] at hmi
          simp only [List.cons_append, List.nil_append, openedIds_wsCreate_cons,
            openedIds_logError_cons, openedIds_nil] at hmi
          rw [List.append_nil] at hmi
          rw [sentOn_append]
          simp only [List.cons_append, List.nil_append, sentOn_wsCreate_cons,
            sentOn_logError_cons, sentOn_nil]
          rw [List.append_nil]
          exact h3 i hmi
        · intro w' hw'
          injection hw' with hw2
          subst hw2
          refine ⟨by dsimp only; omega, ?_, ?_⟩
          · intro _
            rw [openedIds_append]
            simp only [List.cons_append, List.nil_append, openedIds_wsCreate_cons,
              openedIds_logError_cons, openedIds_nil]
            rw [List.append_nil]
            exact h1 n le_rfl
          · intro ho
            exact absurd ho (by simp)
      | some w =>
        by_cases hrs : w.readyState = WSt.OPEN
        · simp only [if_pos hrs]
          exact ext _ _ rfl (fun i => rfl) rfl le_rfl
        · simp only [if_neg hrs]
          refine ⟨?_, ?_, ?_, ?_⟩ <;> dsimp only
          · intro i hi
            rw [openedIds_append]
            simp only [List.cons_append, List.nil_append, openedIds_wsCreate_cons,
              openedIds_logError_cons, openedIds_nil]
            rw [List.append_nil]
            exact h1 i (by omega)
          · intro i hni
            rw [openedIds_append] at hni
            simp only [List.cons_append, List.nil_append, openedIds_wsCreate_cons,
              openedIds_logError_cons, openedIds_nil] at hni
            rw [List.append_nil] at hni
            rw [sentOn_append]
            simp only [List.cons_append, List.nil_append, sentOn_wsCreate_cons,
              sentOn_logError_cons, sentOn_nil]
            rw [List.append_nil]
            exact h2 i hni
          · intro i hmi
            rw [openedIds_append] at hmi
            simp only [List.cons_append, List.nil_append, openedIds_wsCreate_cons,
              openedIds_logError_cons, openedIds_nil] at hmi
            rw [List.append_nil] at hmi
            rw [sentOn_append]
            simp only [List.cons_append, List.nil_append, sentOn_wsCreate_cons,
              sentOn_logError_cons, sentOn_nil]
            rw [List.append_nil]
            exact h3 i hmi
          · intro w' hw'
            injection hw' with hw2
            subst hw2
            refine ⟨by dsimp only; omega, ?_, ?_⟩
            · intro _
              rw [openedIds_append]
              simp only [List.cons_append, List.nil_append, openedIds_wsCreate_cons,
                openedIds_logError_cons, openedIds_nil]
              rw [List.append_nil]
              exact h1 n le_rfl
            · intro ho
              exact absurd ho (by simp)
  | stopRecording =>
    cases mr with
    | none => exact ext _ _ rfl (fun i => rfl) rfl le_rfl
    | some i => exact ext _ _ rfl (fun i => rfl) rfl le_rfl
  | unmount =>
    cases ws with
    | none =>
      cases ac with
      | none => exact ext _ _ rfl (fun i => rfl) rfl le_rfl
      | some c => exact ext _ _ rfl (fun i => rfl) rfl le_rfl
    | some w =>
      obtain ⟨g1, _, _⟩ := h4 w rfl
      cases ac with
      | none =>
        simp only [step]
        refine ⟨?_, ?_, ?_, ?_⟩ <;> dsimp only
        · intro i hi
          simp only [openedIds_append, List.cons_append, List.nil_append,
            List.append_nil, openedIds_wsClosed_cons, openedIds_nil]
          exact h1 i hi
        · intro i hni
          simp only [openedIds_append, List.cons_append, List.nil_append,
            List.append_nil, openedIds_wsClosed_cons, openedIds_nil] at hni
          simp only [sentOn_append, List.cons_append, List.nil_append,
            List.append_nil, sentOn_wsClosed_cons, sentOn_nil]
          exact h2 i hni
        · intro i hmi
          simp only [openedIds_append, List.cons_append, List.nil_append,
            List.append_nil, openedIds_wsClosed_cons, openedIds_nil] at hmi
          simp only [sentOn_append, List.cons_append, List.nil_append,
            List.append_nil, sentOn_wsClosed_cons, sentOn_nil]
          exact h3 i hmi
        · intro w' hw'
          injection hw' with hw2
          subst hw2
          refine ⟨g1, ?_, ?_⟩
          · intro hc
            exact absurd hc (by simp)
          · intro ho
            exact absurd ho (by simp)
      | some c =>
        simp only [step]
        refine ⟨?_, ?_, ?_, ?_⟩ <;> dsimp only
        · intro i hi
          simp only [openedIds_append, List.cons_append, List.nil_append,
            List.append_nil, openedIds_wsClosed_cons, openedIds_ctxClose_cons,
            openedIds_nil]
          exact h1 i hi
        · intro i hni
          simp only [openedIds_append, List.cons_append, List.nil_append,
            List.append_nil, openedIds_wsClosed_cons, openedIds_ctxClose_cons,
            openedIds_nil] at hni
          simp only [sentOn_append, List.cons_append, List.nil_append,
            List.append_nil, sentOn_wsClosed_cons, sentOn_ctxClose_cons, sentOn_nil]
          exact h2 i hni
        · intro i hmi
          simp only [openedIds_append, List.cons_append, List.nil_append,
            List.append_nil, openedIds_wsClosed_cons, openedIds_ctxClose_cons,
            openedIds_nil] at hmi
          simp only [sentOn_append, List.cons_append, List.nil_append,
            List.append_nil, sentOn_wsClosed_cons, sentOn_ctxClose_cons, sentOn_nil]
          exact h3 i hmi
        · intro w' hw'
          injection hw' with hw2
          subst hw2
          refine ⟨g1, ?_, ?_⟩
          · intro hc
            exact absurd hc (by simp)
          · intro ho
            exact absurd ho (by simp)

/-- Runs preserve the open/handshake correspondence. -/
theorem steps_openInv (env : Env) : ∀ (evs : List Evt) (s : SessionState) (tr : List Effect),
    OpenInv s tr → OpenInv (steps env s evs).1 (tr ++ (steps env s evs).2)
  | [], _, _, h => by simpa [steps] using h
  | e :: rest, s, tr, h => by
    have g1 := step_openInv env s tr e h
    have g2 := steps_openInv env rest (step env s e).1 (tr ++ (step env s e).2) g1
    simpa [steps, List.append_assoc] using g2

/-- The open/handshake correspondence holds over every full run. -/
theorem runSession_openInv (env : Env) (evs : List Evt) :
    OpenInv (runSession env evs).1 (runSession env evs).2 := by
  have hnil : openedIds sessionInit.2 = [] := rfl
  have h0 : OpenInv sessionInit.1 sessionInit.2 := by
    refine ⟨?_, ?_, ?_, ?_⟩
    · intro i _ hm
      rw [hnil] at hm
      exact List.not_mem_nil i hm
    · intro i _
      rfl
    · intro i hm
      rw [hnil] at hm
      exact absurd hm (List.not_mem_nil i)
    · intro w hw
      injection hw with hw2
      subst hw2
      refine ⟨by decide, ?_, fun ho => absurd ho (by decide)⟩
      intro _ hm
      rw [hnil] at hm
      exact List.not_mem_nil _ hm
  simpa [runSession] using steps_openInv env evs sessionInit.1 sessionInit.2 h0

/-- **C6.** Per connection (per socket id): once the socket's open event
fires, exactly one `config` handshake carrying the local (non-empty)
timezone is sent on it, as the very first message, and every later
message on that connection is an `audio_chunk`; on a socket whose open
never fired nothing at all is sent.  So exactly one config per
connection open, sent before any audio. -/
theorem claimC6 (env : Env) (evs : List Evt) (i : ℕ) (htz : env.tz ≠ "") :
    (i ∈ openedIds (runSession env evs).2 →
      ∃ tl, sentOn i (runSession env evs).2 = Msg.config env.tz :: tl ∧
        env.tz ≠ "" ∧ ∀ m ∈ tl, ∃ p, m = Msg.audio_chunk p) ∧
    (i ∉ openedIds (runSession env evs).2 → sentOn i (runSession env evs).2 = []) := by
  obtain ⟨_, o2, o3, _⟩ := runSession_openInv env evs
  refine ⟨?_, o2 i⟩
  intro hm
  have hne := o3 i hm
  rcases (runSession_sendInv env evs).2.1 i with h | ⟨tl, heq, hall⟩
  · exact absurd h hne
  · exact ⟨tl, heq, htz, hall⟩

/-- **C6 (witness).** The handshake theorem on the run where the mounted
socket opens, at socket id 0 and the concrete timezone UTC; that socket
did open on this run, so the existence half is exercised. -/
theorem claimC6_witness :
    env0.tz ≠ "" ∧ 0 ∈ openedIds (runSession env0 [Evt.wsOpen]).2 ∧
    ((0 ∈ openedIds (runSession env0 [Evt.wsOpen]).2 →
       ∃ tl, sentOn 0 (runSession env0 [Evt.wsOpen]).2 = Msg.config env0.tz :: tl ∧
         env0.tz ≠ "" ∧ ∀ m ∈ tl, ∃ p, m = Msg.audio_chunk p) ∧
     (0 ∉ openedIds (runSession env0 [Evt.wsOpen]).2 →
       sentOn 0 (runSession env0 [Evt.wsOpen]).2 = [])) :=
  ⟨by decide, by decide, claimC6 env0 [Evt.wsOpen] 0 (by decide)⟩
